import Mathlib

/-!
Verification of the Viona workflow engine against its specification.

The definitions below are a shallow embedding of the engine's TypeScript
source: the planner (`topologicalSort` in `inngest/function.ts` together
with the `toposort` npm library it calls), the run driver
(`executeWorkflow`), the node executors of the executor registry, the
AI-agent executor with its memory window and tool assembly
(`buildToolsFromNodes`), the calculator tool's input validation, the
order-manager tool, and the Handlebars template evaluation used for
prompts and bodies.  Machine integers are modelled as `Int`/`Nat`; the
nondeterministic outcomes of network and LLM calls are oracle parameters;
JavaScript objects are association lists with JS spread-update semantics.
-/

namespace Viona

/-- JSON-like runtime values: the dynamic values stored in a run context
(`Record<string, unknown>` in the source). -/
inductive JValue where
  | null : JValue
  | bool : Bool → JValue
  | num : Int → JValue
  | str : String → JValue
  | arr : List JValue → JValue
  | obj : List (String × JValue) → JValue

/-- A run context: a JavaScript object mapping variable names to values.
Keys are unique by construction (`ctxSet` replaces in place like a JS
property assignment / object spread). -/
abbrev Context := List (String × JValue)

/-- Property read `ctx[k]` on a JS object. -/
def ctxGet (ctx : Context) (k : String) : Option JValue :=
  (ctx.find? (fun p => p.1 = k)).map (fun p => p.2)

/-- JS spread-update `{...ctx, [k]: v}`: replaces the value of an existing
key in place, otherwise appends the new key at the end. -/
def ctxSet (ctx : Context) (k : String) (v : JValue) : Context :=
  if ctx.any (fun p => p.1 = k) then
    ctx.map (fun p => if p.1 = k then (k, v) else p)
  else
    ctx ++ [(k, v)]

/-- Field read on a `JValue.obj`. -/
def jGet (v : JValue) (k : String) : Option JValue :=
  match v with
  | JValue.obj fs => (fs.find? (fun p => p.1 = k)).map (fun p => p.2)
  | _ => none

/-- `c'` keeps every key of `c` (values may be overwritten, no key is
deleted): the "superset" contract of §4.3 of the specification. -/
def keySuperset (c c' : Context) : Prop :=
  ∀ k, (ctxGet c k).isSome = true → (ctxGet c' k).isSome = true

/- ----------------------------------------------------------------- -/
/- Graph data model (Prisma `Node` and `Connection` as used by the
   engine: `inngest/utils.ts` / `inngest/function.ts`).               -/
/- ----------------------------------------------------------------- -/

/-- The per-kind configuration object `node.data`.  The source casts the
free-form JSON to per-kind record types; this structure is the union of
the fields those casts read. -/
structure NodeConfig where
  variableName : Option String := none
  systemPrompt : Option String := none
  userPrompt : Option String := none
  maxIterations : Option Nat := none
  endpoint : Option String := none
  method : Option String := none
  body : Option JValue := none
  provider : Option String := none
  model : Option String := none
  windowSize : Option Nat := none
  memoryKey : Option String := none
  maxLength : Option Nat := none

/-- A stored workflow node (`@prisma/client` `Node`, restricted to the
fields the engine reads). -/
structure DbNode where
  id : String
  type : String
  data : NodeConfig := {}
  credentialId : Option String := none

/-- A stored connection (`@prisma/client` `Connection`, restricted to the
fields the engine reads).  `toInput = none` models a SQL NULL handle. -/
structure WConnection where
  fromNodeId : String
  toNodeId : String
  fromOutput : Option String := none
  toInput : Option String := none

/-- `TRIGGER_TYPES` from `inngest/utils.ts`. -/
def TRIGGER_TYPES : List String :=
  ["MANUAL_TRIGGER", "GOOGLE_FORM_TRIGGER", "STRIPE_TRIGGER", "INITIAL"]

/-- The main-flow filter `!c.toInput || c.toInput === "main" ||
c.toInput === "target-1"` (a JS falsy check also accepts the empty
string). -/
def isMainConnection (c : WConnection) : Bool :=
  match c.toInput with
  | none => true
  | some s => s = "" || s = "main" || s = "target-1"

/-- The adjacency list the planner builds from the main connections:
targets of `u`, in connection order. -/
def adjacencyOf (mains : List WConnection) (u : String) : List String :=
  (mains.filter (fun c => c.fromNodeId = u)).map (fun c => c.toNodeId)

/-- Reachability over an adjacency function from a set of root ids: the
specification's "reachable from some trigger over main edges". -/
inductive ReachFrom (adj : String → List String) (roots : List String) : String → Prop where
  | root {x : String} : x ∈ roots → ReachFrom adj roots x
  | step {u v : String} : ReachFrom adj roots u → v ∈ adj u → ReachFrom adj roots v

/-- The planner's breadth-first search (`inngest/function.ts`): pop the
queue, skip already-reached ids, otherwise record the id and enqueue its
not-yet-reached neighbours.  The fuel argument only bounds the loop; at
the call site it is `nodes.length + connections.length + 1`, which is at
least one more than the total number of queue pushes (each id enters
`reachable` at most once, pushing at most its adjacency list, and the
initial queue holds at most one id per node), so the fuel never runs
out and the function equals the JS loop. -/
def bfsReach (adj : String → List String) : Nat → List String → List String → List String
  | 0, reached, _ => reached
  | _ + 1, reached, [] => reached
  | fuel + 1, reached, current :: queue =>
    if current ∈ reached then
      bfsReach adj fuel reached queue
    else
      let reached' := reached ++ [current]
      bfsReach adj fuel reached' (queue ++ (adj current).filter (fun n => decide (n ∉ reached')))

/- ----------------------------------------------------------------- -/
/- The `toposort` npm library (depth-first topological sort),
   called by the planner on the reachable edges.                     -/
/- ----------------------------------------------------------------- -/

/-- Append `x` if not already present (JS `Set` insertion). -/
def insertUnique (acc : List String) (x : String) : List String :=
  if x ∈ acc then acc else acc ++ [x]

/-- First-occurrence deduplication: JS `[...new Set(list)]`. -/
def dedupFirst (l : List String) : List String :=
  l.foldl insertUnique []

/-- `uniqueNodes(edges)` of the toposort library: all edge endpoints in
first-occurrence order. -/
def uniqueNodes (edges : List (String × String)) : List String :=
  edges.foldl (fun acc e => insertUnique (insertUnique acc e.1) e.2) []

/-- `makeOutgoingEdges` of the toposort library: the `Set` of targets of
`u`, in insertion order. -/
def outgoingOf (edges : List (String × String)) (u : String) : List String :=
  dedupFirst ((edges.filter (fun e => decide (e.1 = u))).map (fun e => e.2))

/-- The recursive `visit` of the toposort library.  State is
`(visited, sorted)`; a finished node is prepended to `sorted`, so the
final list is the library's output array read left to right (the library
fills its array from the back).  `preds` is the chain of grey ancestors;
a child found in it is the library's cyclic-dependency error.  Children
are visited in reverse adjacency order, exactly as the library's
`do ... while` loop does.  The fuel bounds the recursion depth; the
caller passes one more than the number of distinct nodes, which
suffices because the ancestor chain is duplicate-free. -/
def visit (adj : String → List String) : Nat → List String → String →
    List String × List String → Except String (List String × List String)
  | 0, _, _, _ => Except.error "toposort: fuel exhausted"
  | fuel + 1, preds, node, (v, acc) =>
    if node ∈ preds then Except.error "Cyclic dependency detected"
    else if node ∈ v then Except.ok (v, acc)
    else
      (((adj node).reverse).foldlM
          (fun st c => visit adj fuel (node :: preds) c st) (node :: v, acc)).map
        (fun st => (st.1, node :: st.2))

/-- The toposort library's entry point `toposort(edges)`: visit every
endpoint (in reverse first-occurrence order, as the library's index loop
does) and return the sorted ids. -/
def toposortLib (edges : List (String × String)) : Except String (List String) :=
  let ns := uniqueNodes edges
  let adj := outgoingOf edges
  ((ns.reverse).foldlM (fun st n => visit adj (ns.length + 1) [] n st) ([], [])).map
    (fun st => st.2)

/-- Substring test used to model JS `error.message.includes("Cyclic")`. -/
def containsCyclicChars : List Char → Bool
  | 'C' :: 'y' :: 'c' :: 'l' :: 'i' :: 'c' :: _ => true
  | _ :: rest => containsCyclicChars rest
  | [] => false

def containsCyclic (e : String) : Bool :=
  containsCyclicChars e.toList

/-- A nonempty directed path through an edge list; a cycle is a path
from a node to itself. -/
inductive EdgePath (es : List (String × String)) : String → String → Prop where
  | single {u v : String} : (u, v) ∈ es → EdgePath es u v
  | cons {u v w : String} : (u, v) ∈ es → EdgePath es v w → EdgePath es u w

/-- The planner's main-connection list. -/
def planMains (conns : List WConnection) : List WConnection :=
  conns.filter isMainConnection

/-- The planner's trigger node ids, in node order. -/
def planTriggerIds (nodes : List DbNode) : List String :=
  (nodes.filter (fun n => TRIGGER_TYPES.contains n.type)).map (fun n => n.id)

/-- The planner's reachable-id set (BFS from the triggers over main
connections). -/
def planReach (nodes : List DbNode) (conns : List WConnection) : List String :=
  bfsReach (adjacencyOf (planMains conns)) (nodes.length + conns.length + 1) []
    (planTriggerIds nodes)

/-- `reachableNodes` of the planner. -/
def planReachableNodes (nodes : List DbNode) (conns : List WConnection) : List DbNode :=
  nodes.filter (fun n => (planReach nodes conns).contains n.id)

/-- `reachableEdges` of the planner. -/
def planReachableEdges (nodes : List DbNode) (conns : List WConnection) :
    List (String × String) :=
  ((planMains conns).filter (fun c =>
    (planReach nodes conns).contains c.fromNodeId &&
    (planReach nodes conns).contains c.toNodeId)).map (fun c => (c.fromNodeId, c.toNodeId))

/-- Lookup in the planner's node map.  The JS `Map` is built from the
reachable-node list, so the last node with a given id wins. -/
def nodeMapFind (ns : List DbNode) (i : String) : Option DbNode :=
  (ns.reverse).find? (fun n => n.id = i)

/-- `topologicalSort` from `inngest/function.ts` (the trigger-reachability
variant, lines 133–195): keep main connections, breadth-first search from
the trigger nodes, induce the reachable sub-graph, return the reachable
nodes as-is when it has no edges, otherwise toposort its edges (mapping a
cyclic-dependency error to "Workflow contains a cycle"), deduplicate, and
map ids back through the node map dropping misses.  The stages are the
named definitions above (the source binds them as locals). -/
def topologicalSort (nodes : List DbNode) (connections : List WConnection) :
    Except String (List DbNode) :=
  if (planReachableEdges nodes connections).isEmpty then
    Except.ok (planReachableNodes nodes connections)
  else
    match toposortLib (planReachableEdges nodes connections) with
    | Except.error e =>
      Except.error (if containsCyclic e then "Workflow contains a cycle" else e)
    | Except.ok ids =>
      Except.ok ((dedupFirst ids).filterMap
        (fun i => nodeMapFind (planReachableNodes nodes connections) i))

/- ----------------------------------------------------------------- -/
/- Handlebars template evaluation (`Handlebars.compile(tpl)(context)`
   with the registered `json` helper), as used for prompts/bodies.    -/
/- ----------------------------------------------------------------- -/

/-- Handlebars' `escapeExpression` character map (applied to every
double-stache substitution). -/
def hbEscapeChar (c : Char) : String :=
  if c = '&' then "&amp;"
  else if c = '<' then "&lt;"
  else if c = '>' then "&gt;"
  else if c = '"' then "&quot;"
  else if c = '\x27' then "&#x27;"
  else if c = '\x60' then "&#x60;"
  else if c = '=' then "&#x3D;"
  else String.singleton c

def hbEscape (s : String) : String :=
  String.join (s.toList.map hbEscapeChar)

mutual

/-- JS stringification of a substituted value as Handlebars renders it:
strings verbatim, numbers and booleans via `String(...)`, `null`/missing
as the empty string, arrays comma-joined, objects as JS
`[object Object]`. -/
def hbToString : JValue → String
  | JValue.null => ""
  | JValue.bool b => if b then "true" else "false"
  | JValue.num n => toString n
  | JValue.str s => s
  | JValue.arr xs => String.intercalate "," (hbToStringList xs)
  | JValue.obj _ => "[object Object]"

def hbToStringList : List JValue → List String
  | [] => []
  | x :: xs => hbToString x :: hbToStringList xs

end

def jsonEscapeChar (c : Char) : String :=
  if c = '"' then "\\\""
  else if c = '\\' then "\\\\"
  else if c = '\n' then "\\n"
  else if c = '\t' then "\\t"
  else if c = '\r' then "\\r"
  else String.singleton c

def jsonQuote (s : String) : String :=
  "\"" ++ String.join (s.toList.map jsonEscapeChar) ++ "\""

def indentSpaces (n : Nat) : String :=
  String.mk (List.replicate n ' ')

/-- `JSON.stringify(value, null, 2)` as used by the registered `json`
helper. -/
def jsonStringify (indent : Nat) : JValue → String
  | JValue.null => "null"
  | JValue.bool b => if b then "true" else "false"
  | JValue.num n => toString n
  | JValue.str s => jsonQuote s
  | JValue.arr [] => "[]"
  | JValue.arr (x :: xs) =>
    "[\n" ++ String.intercalate ",\n"
        (((x :: xs).attach.map
          (fun y => indentSpaces (indent + 2) ++ jsonStringify (indent + 2) y.1)))
      ++ "\n" ++ indentSpaces indent ++ "]"
  | JValue.obj [] => "\x7b\x7d"
  | JValue.obj (f :: fs) =>
    "\x7b\n" ++ String.intercalate ",\n"
        (((f :: fs).attach.map
          (fun p => indentSpaces (indent + 2) ++ jsonQuote p.1.1 ++ ": "
            ++ jsonStringify (indent + 2) p.1.2)))
      ++ "\n" ++ indentSpaces indent ++ "\x7d"
termination_by v => sizeOf v
decreasing_by
  · have h := List.sizeOf_lt_of_mem y.2
    simp only [List.cons.sizeOf_spec, JValue.arr.sizeOf_spec] at h ⊢
    omega
  · have h := List.sizeOf_lt_of_mem p.2
    have h2 : sizeOf p.1.2 < sizeOf p.1 := by
      rcases p.1 with ⟨a, b⟩
      simp only [Prod.mk.sizeOf_spec]
      omega
    simp only [List.cons.sizeOf_spec, JValue.obj.sizeOf_spec] at h ⊢
    omega

/-- Dotted-path lookup into the context (`a.b.c`). -/
def resolvePath (ctx : Context) : List String → Option JValue
  | [] => none
  | k :: ks => (ctxGet ctx k).bind (fun v => ks.foldlM (fun acc seg => jGet acc seg) v)

def isSpaceChar (c : Char) : Bool :=
  c = ' ' || c = '\t' || c = '\n' || c = '\r'

/-- Whitespace trim on both ends. -/
def trimChars (cs : List Char) : List Char :=
  ((cs.dropWhile isSpaceChar).reverse.dropWhile isSpaceChar).reverse

/-- Split on the dot separator (keeping empty segments, like
`String.splitOn "."`). -/
def splitDotAux : List Char → List Char → List String
  | [], cur => [String.mk cur.reverse]
  | '.' :: rest, cur => String.mk cur.reverse :: splitDotAux rest []
  | c :: rest, cur => splitDotAux rest (c :: cur)

def splitDot (cs : List Char) : List String :=
  splitDotAux cs []

def hbValueAt (ctx : Context) (path : List Char) : Option JValue :=
  resolvePath ctx (splitDot path)

/-- Expansion of one double-stache expression: the `json` helper returns
a `SafeString` (no escaping); a plain path is stringified and
HTML-escaped by Handlebars; unknown paths render as the empty string. -/
def hbExpand (ctx : Context) (inner : List Char) : String :=
  match trimChars inner with
  | 'j' :: 's' :: 'o' :: 'n' :: c :: rest =>
    if isSpaceChar c then
      match hbValueAt ctx (trimChars rest) with
      | some v => jsonStringify 0 v
      | none => ""
    else
      match hbValueAt ctx ('j' :: 's' :: 'o' :: 'n' :: c :: rest) with
      | some v => hbEscape (hbToString v)
      | none => ""
  | t =>
    match hbValueAt ctx t with
    | some v => hbEscape (hbToString v)
    | none => ""

/-- Expansion of a triple-stache expression (no escaping). -/
def hbExpandRaw (ctx : Context) (inner : List Char) : String :=
  match hbValueAt ctx (trimChars inner) with
  | some v => hbToString v
  | none => ""

/-- Scan to the matching double close brace. -/
def findCloseTwo : List Char → Option (List Char × List Char)
  | [] => none
  | '\x7d' :: '\x7d' :: rest => some ([], rest)
  | c :: rest => (findCloseTwo rest).map (fun p => (c :: p.1, p.2))

/-- Scan to the matching triple close brace. -/
def findCloseThree : List Char → Option (List Char × List Char)
  | [] => none
  | '\x7d' :: '\x7d' :: '\x7d' :: rest => some ([], rest)
  | c :: rest => (findCloseThree rest).map (fun p => (c :: p.1, p.2))

/-- Template scanner.  An opened expression that never closes is a
Handlebars parse error (`Handlebars.compile` throws), modelled as
`none`.  Each step consumes at least one character, so fuel equal to
the template length never runs out: the `0` case is unreachable for
the fuel the caller passes. -/
def renderAux (ctx : Context) : Nat → List Char → Option String
  | 0, _ => none
  | _ + 1, [] => some ""
  | fuel + 1, '\x7b' :: '\x7b' :: '\x7b' :: rest =>
    match findCloseThree rest with
    | some (inner, rest') =>
      (renderAux ctx fuel rest').map (fun s => hbExpandRaw ctx inner ++ s)
    | none => none
  | fuel + 1, '\x7b' :: '\x7b' :: rest =>
    match findCloseTwo rest with
    | some (inner, rest') =>
      (renderAux ctx fuel rest').map (fun s => hbExpand ctx inner ++ s)
    | none => none
  | fuel + 1, c :: rest => (renderAux ctx fuel rest).map (fun s => String.singleton c ++ s)

/-- `Handlebars.compile(tpl)(ctx)` restricted to the mustache forms the
engine's templates use: `\x7b\x7bpath\x7d\x7d` (escaped),
`\x7b\x7b\x7bpath\x7d\x7d\x7d` (raw) and `\x7b\x7bjson path\x7d\x7d`
(the registered helper, raw).  A malformed template (an unclosed
expression) makes the compile throw a parse error instead of
rendering. -/
def renderTemplate (tpl : String) (ctx : Context) : Except String String :=
  match renderAux ctx (tpl.length + 1) tpl.toList with
  | some s => Except.ok s
  | none => Except.error "Parse error: unclosed expression"

/- ----------------------------------------------------------------- -/
/- Conversation history (the agent's window-buffer memory).          -/
/- ----------------------------------------------------------------- -/

/-- One `{role, content}` turn of conversation history. -/
structure Turn where
  role : String
  content : String
deriving DecidableEq, Repr

def strField (fs : List (String × JValue)) (k : String) : String :=
  match (fs.find? (fun p => p.1 = k)).map (fun p => p.2) with
  | some (JValue.str s) => s
  | _ => ""

def decodeTurn : JValue → Turn
  | JValue.obj fs => { role := strField fs "role", content := strField fs "content" }
  | _ => { role := "", content := "" }

/-- `(context[memoryKey] as Array<...>) || []`. -/
def decodeHistory : Option JValue → List Turn
  | some (JValue.arr xs) => xs.map decodeTurn
  | _ => []

def encodeTurn (t : Turn) : JValue :=
  JValue.obj [("role", JValue.str t.role), ("content", JValue.str t.content)]

def encodeHistory (h : List Turn) : JValue :=
  JValue.arr (h.map encodeTurn)

/-- JS `list.slice(-n)` for `n ≥ 1`: the last `min n (length)` elements. -/
def sliceLast {α : Type} (n : Nat) (l : List α) : List α :=
  l.drop (l.length - n)

/-- JS truthiness of an optional string: `none` and the empty string are
falsy. -/
def jsStr (o : Option String) : Option String :=
  match o with
  | some "" => none
  | x => x

/-- `memoryData?.memoryKey || "chatHistory"`. -/
def effMemoryKey (m : Option NodeConfig) : String :=
  match m.bind (fun md => jsStr md.memoryKey) with
  | some s => s
  | none => "chatHistory"

/-- `memoryData?.windowSize || 10` (`0` is falsy in JS). -/
def effWindowSize (m : Option NodeConfig) : Nat :=
  match m.bind (fun md => md.windowSize) with
  | some 0 => 10
  | some w => w
  | none => 10

/- ----------------------------------------------------------------- -/
/- Node executors and the run driver.                                -/
/- ----------------------------------------------------------------- -/

/-- One record published on a status channel. -/
structure StatusEvent where
  nodeId : String
  status : String
deriving DecidableEq, Repr

/-- The outcome of one executor call: the status events it published, in
order, and either the returned context or the thrown error message. -/
structure ExecResult where
  events : List StatusEvent := []
  output : Except String Context

/-- Oracle for the outcome of one HTTP call (`ky`). -/
structure HttpOutcome where
  status : Int
  statusText : String
  isJson : Bool
  jsonBody : JValue
  textBody : String

/-- Per-node oracles for the nondeterministic outcomes of external
calls: HTTP responses, `generateText`, and messaging sends. -/
structure Oracle where
  http : Except String HttpOutcome := Except.error "network unavailable"
  llm : Except String String := Except.error "llm unavailable"
  agentGen : List Turn → Except String (String × Nat) := fun _ => Except.error "llm unavailable"
  messageSend : Except String String := Except.error "channel unavailable"

/-- The stored state the executors read: connections, nodes by id, and
the credential store's decrypted values. -/
structure World where
  connections : List WConnection := []
  nodeById : String → Option DbNode := fun _ => none
  credentialValue : String → Option String := fun _ => none

/-- `resolveCredential` of the agent executor: no id or no stored value
yields the empty key (decryption failures are caught by the caller and
also end as an empty key). -/
def resolveCredential (w : World) (cid : Option String) : String :=
  match cid with
  | none => ""
  | some c => (w.credentialValue c).getD ""

/-- `manualTriggerExecutor` (also registered for `INITIAL`): publishes
loading, runs a durable step returning the context, publishes success. -/
def manualTriggerExecutor (node : DbNode) (ctx : Context) (_w : World) (_o : Oracle) :
    ExecResult :=
  { events := [⟨node.id, "loading"⟩, ⟨node.id, "success"⟩], output := Except.ok ctx }

/-- `httpRequestExecutor` (the variant with `variableName`, lines 54–104
of the executor file): validates endpoint and variable name, performs
the request inside a durable step, and binds
`\x7bhttpResponce: \x7bstatus, statusText, data\x7d\x7d` (spelling as in
the source) under the variable name; `data` is the parsed JSON body for
JSON content types and the raw text otherwise.  It publishes no status
events. -/
def httpRequestExecutor (node : DbNode) (ctx : Context) (_w : World) (o : Oracle) :
    ExecResult :=
  match jsStr node.data.endpoint with
  | none => { output := Except.error "HTTP Request node: No endpoint configured" }
  | some _ =>
    match jsStr node.data.variableName with
    | none => { output := Except.error "HTTP Request node: No variable name configured" }
    | some varName =>
      match o.http with
      | Except.error e => { output := Except.error e }
      | Except.ok h =>
        let payload := JValue.obj [("httpResponce", JValue.obj
          [("status", JValue.num h.status),
           ("statusText", JValue.str h.statusText),
           ("data", if h.isJson then h.jsonBody else JValue.str h.textBody)])]
        { output := Except.ok (ctxSet ctx varName payload) }

/-- Common shape of the Gemini / OpenAI / Anthropic text executors:
publish loading, validate variable name and user prompt (error status
plus a non-retriable error naming the node kind), render both prompts
with Handlebars, call the provider inside `step.ai.wrap`, and on success
bind `\x7baiResponse\x7d` under the variable name.  The prompt compiles
happen OUTSIDE the try/catch that publishes the terminal status, so a
malformed prompt template throws after the loading publish and no
terminal event follows. -/
def llmTextExecutor (errVar errPrompt : String) (node : DbNode) (ctx : Context)
    (_w : World) (o : Oracle) : ExecResult :=
  let nodeId := node.id
  match jsStr node.data.variableName with
  | none =>
    { events := [⟨nodeId, "loading"⟩, ⟨nodeId, "error"⟩], output := Except.error errVar }
  | some varName =>
    match jsStr node.data.userPrompt with
    | none =>
      { events := [⟨nodeId, "loading"⟩, ⟨nodeId, "error"⟩], output := Except.error errPrompt }
    | some up =>
      match (match jsStr node.data.systemPrompt with
             | some sp => renderTemplate sp ctx
             | none => Except.ok "You are a helpfull assistant.") with
      | Except.error e =>
        { events := [⟨nodeId, "loading"⟩], output := Except.error e }
      | Except.ok _systemPrompt =>
        match renderTemplate up ctx with
        | Except.error e =>
          { events := [⟨nodeId, "loading"⟩], output := Except.error e }
        | Except.ok _userPrompt =>
          match o.llm with
          | Except.error e =>
            { events := [⟨nodeId, "loading"⟩, ⟨nodeId, "error"⟩], output := Except.error e }
          | Except.ok text =>
            { events := [⟨nodeId, "loading"⟩, ⟨nodeId, "success"⟩],
              output := Except.ok (ctxSet ctx varName (JValue.obj [("aiResponse", JValue.str text)])) }

def geminiExecutor : DbNode → Context → World → Oracle → ExecResult :=
  llmTextExecutor "Variable name is required" "User prompt is required"

def openAiExecutor : DbNode → Context → World → Oracle → ExecResult :=
  llmTextExecutor "OpenAi Node:Variable name is required" "OpenAi Node:User prompt is required"

def anthropicExecutor : DbNode → Context → World → Oracle → ExecResult :=
  llmTextExecutor "Anthropic Node:Variable name is required" "Anthropic Node:User prompt is required"

/-- `memoryExecutor`: a config-only sub-node; returns the context
unchanged and publishes nothing. -/
def memoryExecutor (_node : DbNode) (ctx : Context) (_w : World) (_o : Oracle) : ExecResult :=
  { output := Except.ok ctx }

/-- `chatModelExecutor`: a config-only sub-node; returns the context
unchanged and publishes nothing. -/
def chatModelExecutor (_node : DbNode) (ctx : Context) (_w : World) (_o : Oracle) : ExecResult :=
  { output := Except.ok ctx }

/-- `sendEmailExecutor`: a pass-through tool sub-node; returns the
context unchanged and publishes nothing. -/
def sendEmailExecutor (_node : DbNode) (ctx : Context) (_w : World) (_o : Oracle) : ExecResult :=
  { output := Except.ok ctx }

/-- Modelled from the spec: the web-scraper / calculator /
inventory-lookup / order-manager standalone executor files are not under
src/ (only the registry imports them).  Per the §4.3 executor contract
they publish loading at entry and a terminal status at exit; per §4.5
these kinds are configuration the agent reads, so the executor itself is
a pass-through. -/
def toolSubNodeExecutor (node : DbNode) (ctx : Context) (_w : World) (_o : Oracle) :
    ExecResult :=
  { events := [⟨node.id, "loading"⟩, ⟨node.id, "success"⟩], output := Except.ok ctx }

/-- Modelled from the spec: the Google-Form / Stripe trigger executor
files are not under src/.  Per §4.2/§4.3 a trigger executor publishes
loading and success and passes the context through (the webhook payload
is already in the initial context). -/
def webhookTriggerExecutor (node : DbNode) (ctx : Context) (_w : World) (_o : Oracle) :
    ExecResult :=
  { events := [⟨node.id, "loading"⟩, ⟨node.id, "success"⟩], output := Except.ok ctx }

/-- Modelled from the spec: the Discord / Slack executor files are not
under src/.  Per §4.3 and §6 they validate their variable name, publish
loading and a terminal status, and bind `\x7bmessageContent\x7d` under
the variable name. -/
def messageExecutor (errVar : String) (node : DbNode) (ctx : Context) (_w : World)
    (o : Oracle) : ExecResult :=
  let nodeId := node.id
  match jsStr node.data.variableName with
  | none =>
    { events := [⟨nodeId, "loading"⟩, ⟨nodeId, "error"⟩], output := Except.error errVar }
  | some varName =>
    match o.messageSend with
    | Except.error e =>
      { events := [⟨nodeId, "loading"⟩, ⟨nodeId, "error"⟩], output := Except.error e }
    | Except.ok content =>
      { events := [⟨nodeId, "loading"⟩, ⟨nodeId, "success"⟩],
        output := Except.ok (ctxSet ctx varName
          (JValue.obj [("messageContent", JValue.str content)])) }

def discordExecutor : DbNode → Context → World → Oracle → ExecResult :=
  messageExecutor "Discord node: Variable name is required"

def slackExecutor : DbNode → Context → World → Oracle → ExecResult :=
  messageExecutor "Slack node: Variable name is required"

/- ----- The AI agent executor ----- -/

/-- The discovery result of the agent's sub-node scan. -/
structure AgentSubNodes where
  chatModelNodeId : Option String := none
  chatModel : Option NodeConfig := none
  chatModelCredentialId : Option String := none
  memoryNodeId : Option String := none
  memory : Option NodeConfig := none
  toolNodeIds : List String := []

/-- The agent's sub-node discovery: scan the connections into this node
and partition them by `toInput` label, fetching the sub-node records;
for chat-model and memory the last matching connection wins, tool
sub-node ids accumulate in connection order.  The chat-model node's own
`credentialId` column overrides the one in its data blob. -/
def discoverSubNodes (w : World) (nodeId : String) : AgentSubNodes :=
  (w.connections.filter (fun c => c.toNodeId = nodeId)).foldl
    (fun acc conn =>
      if conn.toInput = some "chat-model-target" then
        match w.nodeById conn.fromNodeId with
        | some n =>
          { acc with
            chatModelNodeId := some n.id
            chatModel := some n.data
            chatModelCredentialId :=
              match n.credentialId with
              | some c => some c
              | none => acc.chatModelCredentialId }
        | none => acc
      else if conn.toInput = some "memory-target" then
        match w.nodeById conn.fromNodeId with
        | some n => { acc with memoryNodeId := some n.id, memory := some n.data }
        | none => acc
      else if conn.toInput = some "tool-target" then
        { acc with toolNodeIds := acc.toolNodeIds ++ [conn.fromNodeId] }
      else acc)
    {}

/-- The sub-node ids the agent publishes status for, in publish order:
chat model, then memory, then tools. -/
def agentSubIdList (s : AgentSubNodes) : List String :=
  (match s.chatModelNodeId with | some i => [i] | none => []) ++
  (match s.memoryNodeId with | some i => [i] | none => []) ++
  s.toolNodeIds

/-- `aiAgentExecutor` (the org-scoped variant, lines 693–902 of the
agent source): publish loading; validate variable name and user prompt;
discover sub-nodes; require a chat-model provider and an API key;
publish loading for every sub-node; read the last `windowSize` turns of
`context[memoryKey]`; render the prompts (the Handlebars compile runs
OUTSIDE the try/catch, so a malformed prompt template throws after the
loading publishes and no terminal event follows); call `generateText`
with the prior turns plus the new user turn; on success append the user prompt
and answer to the full stored history, truncate to `windowSize * 2`,
publish success for itself and all sub-nodes, and return the spread
context with the agent result and (when a memory sub-node exists) the
updated history. -/
def aiAgentExecutor (node : DbNode) (ctx : Context) (w : World) (o : Oracle) : ExecResult :=
  let nodeId := node.id
  let data := node.data
  match jsStr data.variableName with
  | none =>
    { events := [⟨nodeId, "loading"⟩, ⟨nodeId, "error"⟩],
      output := Except.error "AI Agent: Variable name is required" }
  | some varName =>
  match jsStr data.userPrompt with
  | none =>
    { events := [⟨nodeId, "loading"⟩, ⟨nodeId, "error"⟩],
      output := Except.error "AI Agent: User prompt is required" }
  | some up =>
    let subs := discoverSubNodes w nodeId
    match jsStr (subs.chatModel.bind (fun c => c.provider)) with
    | none =>
      { events := [⟨nodeId, "loading"⟩, ⟨nodeId, "error"⟩],
        output := Except.error "AI Agent: No Chat Model connected. Connect a Chat Model sub-node to the bottom-left handle." }
    | some _provider =>
      let apiKey := resolveCredential w subs.chatModelCredentialId
      if apiKey = "" then
        { events := [⟨nodeId, "loading"⟩, ⟨nodeId, "error"⟩],
          output := Except.error "AI Agent: Chat Model has no API key configured." }
      else
        let subIds := agentSubIdList subs
        let statusFor := fun (s : String) => subIds.map (fun i => StatusEvent.mk i s)
        let memoryKey := effMemoryKey subs.memory
        let windowSize := effWindowSize subs.memory
        let existingHistory := decodeHistory (ctxGet ctx memoryKey)
        let recentHistory := sliceLast windowSize existingHistory
        match (match jsStr data.systemPrompt with
               | some sp => renderTemplate sp ctx
               | none => Except.ok
                   "You are a helpful AI assistant that can use tools to accomplish tasks.") with
        | Except.error e =>
          { events := [⟨nodeId, "loading"⟩] ++ statusFor "loading",
            output := Except.error e }
        | Except.ok _systemPrompt =>
        match renderTemplate up ctx with
        | Except.error e =>
          { events := [⟨nodeId, "loading"⟩] ++ statusFor "loading",
            output := Except.error e }
        | Except.ok userPrompt =>
        let messages := recentHistory ++ [⟨"user", userPrompt⟩]
        match o.agentGen messages with
        | Except.error e =>
          { events := [⟨nodeId, "loading"⟩] ++ statusFor "loading"
              ++ [⟨nodeId, "error"⟩] ++ statusFor "error",
            output := Except.error e }
        | Except.ok (text, stepsLen) =>
          let updatedHistory := sliceLast (windowSize * 2)
            (existingHistory ++ [⟨"user", userPrompt⟩, ⟨"assistant", text⟩])
          let ctx1 := ctxSet ctx varName (JValue.obj
            [("agentResponse", JValue.str text),
             ("toolCallCount", JValue.num ((stepsLen : Int) - 1))])
          let ctx2 := if subs.memory.isSome then
              ctxSet ctx1 memoryKey (encodeHistory updatedHistory)
            else ctx1
          { events := [⟨nodeId, "loading"⟩] ++ statusFor "loading"
              ++ [⟨nodeId, "success"⟩] ++ statusFor "success",
            output := Except.ok ctx2 }

/-- The executor registry (`executor-registry.ts`, full variant): every
`NodeType` maps to its executor; an unknown kind throws. -/
def getExecutorFn (kind : String) :
    Option (DbNode → Context → World → Oracle → ExecResult) :=
  if kind = "MANUAL_TRIGGER" then some manualTriggerExecutor
  else if kind = "INITIAL" then some manualTriggerExecutor
  else if kind = "HTTP_REQUEST" then some httpRequestExecutor
  else if kind = "GOOGLE_FORM_TRIGGER" then some webhookTriggerExecutor
  else if kind = "STRIPE_TRIGGER" then some webhookTriggerExecutor
  else if kind = "GEMINI" then some geminiExecutor
  else if kind = "ANTHROPIC" then some anthropicExecutor
  else if kind = "OPENAI" then some openAiExecutor
  else if kind = "DISCORD" then some discordExecutor
  else if kind = "SLACK" then some slackExecutor
  else if kind = "AI_AGENT" then some aiAgentExecutor
  else if kind = "CHAT_MODEL" then some chatModelExecutor
  else if kind = "MEMORY" then some memoryExecutor
  else if kind = "SEND_EMAIL" then some sendEmailExecutor
  else if kind = "WEB_SCRAPER" then some toolSubNodeExecutor
  else if kind = "CALCULATOR" then some toolSubNodeExecutor
  else if kind = "INVENTORY_LOOKUP" then some toolSubNodeExecutor
  else if kind = "ORDER_MANAGER" then some toolSubNodeExecutor
  else none

/-- One completed node of a run: the context the executor received and
the context it returned. -/
structure TraceEntry where
  nodeId : String
  ctxIn : Context
  ctxOut : Context

/-- The run driver's loop (`executeWorkflow`): look up the executor by
kind, call it on the current context, substitute the returned context
for the next node, stop on the first thrown error. -/
def runPlan (w : World) (oracleFor : String → Oracle) :
    List DbNode → Context → List TraceEntry × List StatusEvent × Except String Context
  | [], ctx => ([], [], Except.ok ctx)
  | n :: rest, ctx =>
    match getExecutorFn n.type with
    | none => ([], [], Except.error ("No executor found for node type: " ++ n.type))
    | some ex =>
      let r := ex n ctx w (oracleFor n.id)
      match r.output with
      | Except.error e => ([], r.events, Except.error e)
      | Except.ok ctx' =>
        let res := runPlan w oracleFor rest ctx'
        (⟨n.id, ctx, ctx'⟩ :: res.1, r.events ++ res.2.1, res.2.2)

/-- The whole Inngest function `execute-workflow`: plan inside the
`prepare-workflow` step, then drive the plan over the initial context.
A planning error aborts before any executor runs, so no status event is
published. -/
def executeWorkflow (w : World) (oracleFor : String → Oracle) (nodes : List DbNode)
    (conns : List WConnection) (initialData : Context) :
    List TraceEntry × List StatusEvent × Except String Context :=
  match topologicalSort nodes conns with
  | Except.error e => ([], [], Except.error e)
  | Except.ok plan => runPlan w oracleFor plan initialData

/- ----------------------------------------------------------------- -/
/- The calculator tool's input validation (`buildToolsFromNodes`,
   CALCULATOR branch).                                               -/
/- ----------------------------------------------------------------- -/

/-- JS regex word characters (`\w`). -/
def isWordChar (c : Char) : Bool :=
  c.isAlpha || c.isDigit || c = '_'

/-- `expression.replace(/Math\.\w+/g, "")`: drop every occurrence of
`Math.` followed by at least one word character (greedy); on a failed
match the scan advances one character, like the regex engine.  Each step
consumes at least one character, so fuel = length + 1 suffices. -/
def remMathCalls : Nat → List Char → List Char
  | 0, l => l
  | _ + 1, [] => []
  | fuel + 1, 'M' :: 'a' :: 't' :: 'h' :: '.' :: rest =>
    let ws := rest.takeWhile isWordChar
    if ws.isEmpty then 'M' :: remMathCalls fuel ('a' :: 't' :: 'h' :: '.' :: rest)
    else remMathCalls fuel (rest.drop ws.length)
  | fuel + 1, c :: rest => c :: remMathCalls fuel rest

/-- `.replace(/PI|E/g, "")`: at each position the alternation first
tries `PI`, then `E`. -/
def remPIE : Nat → List Char → List Char
  | 0, l => l
  | _ + 1, [] => []
  | fuel + 1, 'P' :: 'I' :: rest => remPIE fuel rest
  | fuel + 1, 'E' :: rest => remPIE fuel rest
  | fuel + 1, c :: rest => c :: remPIE fuel rest

/-- The character class of the validation regex
`[0-9+\-*/%.() ,eE\s]`. -/
def calcSafeChar (c : Char) : Bool :=
  c.isDigit || c = '+' || c = '-' || c = '*' || c = '/' || c = '%' || c = '.' ||
  c = '(' || c = ')' || c = ' ' || c = ',' || c = 'e' || c = 'E' ||
  c = '\t' || c = '\n' || c = '\r' || c = '\x0b' || c = '\x0c'

/-- The calculator tool's validation: strip `Math.<word>` calls and the
`PI`/`E` constants, then require every remaining character to be in the
safe class. -/
def calcValidationPasses (expr : String) : Bool :=
  let cs := expr.toList
  let cleaned := remPIE (cs.length + 1) (remMathCalls (cs.length + 1) cs)
  cleaned.all calcSafeChar

/-- One word-boundary global replace (JS `.replace(/\bword\b/g, repl)`).
The `prev` argument carries the character preceding the scan position in
the original string, for the left boundary test. -/
def replaceWordAux (w repl : List Char) : Nat → Option Char → List Char → List Char
  | 0, _, l => l
  | _ + 1, _, [] => []
  | fuel + 1, prev, c :: rest =>
    let l := c :: rest
    if w.isPrefixOf l
        && (match prev with | none => true | some p => !(isWordChar p))
        && (match l.drop w.length with | [] => true | n :: _ => !(isWordChar n)) then
      repl ++ replaceWordAux w repl fuel w.getLast? (l.drop w.length)
    else
      c :: replaceWordAux w repl fuel (some c) rest

def replaceWord (word repl s : String) : String :=
  String.mk (replaceWordAux word.toList repl.toList (s.length + 1) none s.toList)

/-- The rewrite chain the calculator applies before `new Function`:
`\bPI\b → Math.PI`, `\bE\b → Math.E`, and the eleven function names to
their `Math.` forms (`pow` is notably absent from the rewrites). -/
def calcRewrite (s : String) : String :=
  [("PI", "Math.PI"), ("E", "Math.E"), ("sqrt", "Math.sqrt"), ("sin", "Math.sin"),
   ("cos", "Math.cos"), ("tan", "Math.tan"), ("log", "Math.log"), ("abs", "Math.abs"),
   ("round", "Math.round"), ("ceil", "Math.ceil"), ("floor", "Math.floor")].foldl
    (fun acc p => replaceWord p.1 p.2 acc) s

/-- The calculator tool's `execute`: validate, and only when validation
passes hand the rewritten expression to the JS evaluator (modelled as an
oracle, since `new Function` executes arbitrary code). -/
def calculatorToolExecute (evalOracle : String → String) (expression : String) : String :=
  if calcValidationPasses expression then
    evalOracle (calcRewrite expression)
  else
    "Error: Expression contains unsafe characters. Only numbers, operators (+,-,*,/,%,**), and Math functions are allowed."

/-- The specification's closed token set for the calculator, §4.5 (the
bare constants and unary function names; `Math` itself is accepted
because the tool's syntax writes functions as `Math.sqrt` etc.). -/
def specAllowedCalcIdents : List String :=
  ["PI", "E", "sqrt", "sin", "cos", "tan", "log", "abs", "round", "ceil", "floor",
   "pow", "Math"]

def identRunsAux : List Char → List Char → List String
  | [], cur => if cur.isEmpty then [] else [String.mk cur.reverse]
  | c :: rest, cur =>
    if c.isAlpha || c = '_' then identRunsAux rest (c :: cur)
    else if cur.isEmpty then identRunsAux rest []
    else String.mk cur.reverse :: identRunsAux rest []

/-- The maximal identifier runs of an expression (spec-side definition,
used to state what "contains an identifier outside the allowed set"
means). -/
def identRuns (s : String) : List String :=
  identRunsAux s.toList []

def specHasDisallowedCalcIdent (s : String) : Bool :=
  (identRuns s).any (fun t => !(specAllowedCalcIdents.contains t))

/- ----------------------------------------------------------------- -/
/- The order-manager tool (`buildToolsFromNodes`, ORDER_MANAGER
   branch): `update_order_status`.                                   -/
/- ----------------------------------------------------------------- -/

/-- A row of the `order` table (the columns the update tool touches). -/
structure OrderRow where
  order_id : Nat
  org_id : Nat
  status : String
deriving DecidableEq, Repr

/-- `update_order_status`: `findFirst` scoped to the agent's `org_id`
(when known); a miss returns the not-found error string and performs no
write; a hit updates the status of the order with that unique id. -/
def updateOrderStatus (orgId : Option Nat) (db : List OrderRow) (orderId : Nat)
    (newStatus : String) : List OrderRow × String :=
  match db.find? (fun o =>
      decide (o.order_id = orderId) &&
      (match orgId with | some g => decide (o.org_id = g) | none => true)) with
  | none => (db, "Error: Order #" ++ toString orderId ++ " not found in your organization.")
  | some _ =>
    (db.map (fun o => if o.order_id = orderId then { o with status := newStatus } else o),
     "Order #" ++ toString orderId ++ " status updated to \"" ++ newStatus ++ "\" successfully.")

/- ----------------------------------------------------------------- -/
/- Tool assembly (`buildToolsFromNodes`): the `tools` object keyed by
   tool name.                                                        -/
/- ----------------------------------------------------------------- -/

/-- A tool sub-node as `buildToolsFromNodes` receives it. -/
structure ToolNodeRec where
  id : String
  type : String
  variableName : Option String := none

/-- What identifies a registered tool descriptor for our purposes: the
sub-node it was built from and which tool of that sub-node it is. -/
structure ToolDescr where
  sourceNodeId : String
  toolKind : String
deriving DecidableEq, Repr

/-- `(toolNode.data as any)?.variableName || tool_<first 8 chars of id>`. -/
def toolNameDefault (n : ToolNodeRec) : String :=
  match jsStr n.variableName with
  | some v => v
  | none => "tool_" ++ (n.id.take 8)

/-- The `tools[...] = tool(...)` assignments one sub-node performs, in
source order: HTTP_REQUEST and unknown kinds use the node's variable
name (or the id-derived default); SEND_EMAIL, WEB_SCRAPER, CALCULATOR
use fixed names; INVENTORY_LOOKUP registers two fixed names and
ORDER_MANAGER three. -/
def toolEntriesFor (n : ToolNodeRec) : List (String × ToolDescr) :=
  if n.type = "HTTP_REQUEST" then [(toolNameDefault n, ⟨n.id, "http_request"⟩)]
  else if n.type = "SEND_EMAIL" then [("send_email", ⟨n.id, "send_email"⟩)]
  else if n.type = "WEB_SCRAPER" then [("web_scraper", ⟨n.id, "web_scraper"⟩)]
  else if n.type = "CALCULATOR" then [("calculator", ⟨n.id, "calculator"⟩)]
  else if n.type = "INVENTORY_LOOKUP" then
    [("search_products", ⟨n.id, "search_products"⟩),
     ("list_warehouses", ⟨n.id, "list_warehouses"⟩)]
  else if n.type = "ORDER_MANAGER" then
    [("search_orders", ⟨n.id, "search_orders"⟩),
     ("update_order_status", ⟨n.id, "update_order_status"⟩),
     ("get_order_stats", ⟨n.id, "get_order_stats"⟩)]
  else [(toolNameDefault n, ⟨n.id, "generic"⟩)]

/-- JS property assignment `tools[name] = descr`: replaces the value of
an existing key in place, otherwise appends. -/
def toolsSet (acc : List (String × ToolDescr)) (e : String × ToolDescr) :
    List (String × ToolDescr) :=
  if acc.any (fun p => decide (p.1 = e.1)) then
    acc.map (fun p => if p.1 = e.1 then e else p)
  else acc ++ [e]

/-- `buildToolsFromNodes`: fold the per-node assignments over the tool
sub-nodes in processing order. -/
def buildToolsFromNodes (ns : List ToolNodeRec) : List (String × ToolDescr) :=
  ns.foldl (fun acc n => (toolEntriesFor n).foldl toolsSet acc) []

def toolLookup (ts : List (String × ToolDescr)) (name : String) : Option ToolDescr :=
  (ts.find? (fun p => decide (p.1 = name))).map (fun p => p.2)

/- ----------------------------------------------------------------- -/
/- Specification-side predicates used by the theorems.               -/
/- ----------------------------------------------------------------- -/

/-- The invariant of the toposort depth-first search.  `preds` is the
grey ancestor chain, `v` the visited set, `acc` the finished output so
far (most recently finished first): the output is duplicate-free, lies
inside the visited set, every visited node is finished or grey, no
finished node is grey, and every finished node precedes each of its
successors in the output. -/
def VisitInv (adj : String → List String) (preds v acc : List String) : Prop :=
  acc.Nodup ∧
  (∀ x ∈ acc, x ∈ v) ∧
  (∀ x ∈ v, x ∈ acc ∨ x ∈ preds) ∧
  (∀ x ∈ acc, x ∉ preds) ∧
  (∀ u c, u ∈ acc → c ∈ adj u → [u, c].Sublist acc)

/-- Each completed node received exactly the context its predecessor
returned (§4.2 step 4 / §8). -/
def Chained : List TraceEntry → Prop
  | [] => True
  | [_] => True
  | a :: b :: r => b.ctxIn = a.ctxOut ∧ Chained (b :: r)

/-- Workflow with two triggers, one of which is isolated: T1 → A plus a
second trigger T2 with no edges. -/
def exT1 : DbNode := { id := "T1", type := "MANUAL_TRIGGER" }
def exA : DbNode := { id := "A", type := "HTTP_REQUEST" }
def exT2 : DbNode := { id := "T2", type := "MANUAL_TRIGGER" }
def exMainConn : WConnection := { fromNodeId := "T1", toNodeId := "A", toInput := some "main" }
def exNodes : List DbNode := [exT1, exA, exT2]
def exConns : List WConnection := [exMainConn]

/-- Two-node cycle: A → B → A, with and without a trigger kind on A. -/
def cycTrigA : DbNode := { id := "A", type := "MANUAL_TRIGGER" }
def cycPlainA : DbNode := { id := "A", type := "HTTP_REQUEST" }
def cycB : DbNode := { id := "B", type := "HTTP_REQUEST" }
def cycE1 : WConnection := { fromNodeId := "A", toNodeId := "B", toInput := some "main" }
def cycE2 : WConnection := { fromNodeId := "B", toNodeId := "A", toInput := some "main" }

/-- A configured HTTP_REQUEST node and a successful JSON response, for
evaluating the executor's output shape. -/
def c6node : DbNode :=
  { id := "H", type := "HTTP_REQUEST",
    data := { variableName := some "r", endpoint := some "https://api/x" } }
def c6json : JValue := JValue.obj [("id", JValue.str "abc")]
def c6oracle : Oracle :=
  { http := Except.ok
      { status := 200, statusText := "OK", isJson := true, jsonBody := c6json,
        textBody := "" } }
def c6oracleText : Oracle :=
  { http := Except.ok
      { status := 200, statusText := "OK", isJson := false, jsonBody := JValue.null,
        textBody := "plain body" } }

/-- Template-evaluation fixtures: the body template of seed test 2 and a
context whose referenced value contains an HTML-special character. -/
def c9tpl : String := "\x7b\x22id\x22:\x22\x7b\x7br.httpResponse.data.id\x7d\x7d\x22\x7d"
def c9ctxAmp : Context :=
  [("r", JValue.obj [("httpResponse", JValue.obj
    [("data", JValue.obj [("id", JValue.str "a&b")])])])]
def c9ctxPlain : Context :=
  [("r", JValue.obj [("httpResponse", JValue.obj
    [("data", JValue.obj [("id", JValue.str "abc")])])])]

/-- A concrete agent star: agent AG with a gemini chat-model sub-node CM
(credential "c1") and a memory sub-node MEM with window size 2, plus a
deterministic generation oracle. -/
def w3cm : DbNode :=
  { id := "CM", type := "CHAT_MODEL",
    data := { provider := some "gemini", model := some "gemini-2.0-flash" },
    credentialId := some "c1" }
def w3mem : DbNode :=
  { id := "MEM", type := "MEMORY", data := { windowSize := some 2 } }
def w3agent : DbNode :=
  { id := "AG", type := "AI_AGENT",
    data := { variableName := some "agent", userPrompt := some "hello" } }
def w3 : World :=
  { connections :=
      [{ fromNodeId := "CM", toNodeId := "AG", toInput := some "chat-model-target" },
       { fromNodeId := "MEM", toNodeId := "AG", toInput := some "memory-target" }],
    nodeById := fun i =>
      if i = "CM" then some w3cm
      else if i = "MEM" then some w3mem
      else if i = "AG" then some w3agent
      else none,
    credentialValue := fun c => if c = "c1" then some "sk-key" else none }
def w3oracle : Oracle :=
  { agentGen := fun _ => Except.ok ("the answer", 1) }
def w3history : List Turn :=
  [⟨"user", "p1"⟩, ⟨"assistant", "a1"⟩, ⟨"user", "p2"⟩, ⟨"assistant", "a2"⟩]
def w3ctx : Context := [("chatHistory", encodeHistory w3history)]

/-- Orders of two organizations, for the cross-tenant update test:
order 42 belongs to org 2, the agent runs for org 1. -/
def c5db : List OrderRow :=
  [{ order_id := 41, org_id := 1, status := "pending" },
   { order_id := 42, org_id := 2, status := "pending" }]

/-- Two calculator tool sub-nodes with different variable names. -/
def c10calc1 : ToolNodeRec := { id := "calcnode1", type := "CALCULATOR", variableName := some "calcA" }
def c10calc2 : ToolNodeRec := { id := "calcnode2", type := "CALCULATOR", variableName := some "calcB" }

/-- A small two-node plan (trigger then gemini) and its oracles, used to
exercise the driver. -/
def c2trig : DbNode := { id := "T", type := "MANUAL_TRIGGER" }
def c2gem : DbNode :=
  { id := "G", type := "GEMINI",
    data := { variableName := some "g", userPrompt := some "hi" } }
def c2oracleFor : String → Oracle :=
  fun i => if i = "G" then { llm := Except.ok "txt" } else {}

/-- The agent's concrete output context in the `w3` run. -/
def w3ctxOut : Context :=
  [("chatHistory", encodeHistory
      [⟨"user", "p2"⟩, ⟨"assistant", "a2"⟩, ⟨"user", "hello"⟩,
       ⟨"assistant", "the answer"⟩]),
   ("agent", JValue.obj
      [("agentResponse", JValue.str "the answer"), ("toolCallCount", JValue.num 0)])]

/- ================================================================= -/
/- Theorems.                                                         -/
/- ================================================================= -/

theorem mem_insertUnique {l : List String} {x y : String} :
    y ∈ insertUnique l x ↔ y ∈ l ∨ y = x := by
  unfold insertUnique
  split
  · rename_i h
    exact ⟨Or.inl, fun hy => hy.elim id (fun e => e ▸ h)⟩
  · simp

theorem foldl_insertUnique_mem :
    ∀ (l acc : List String) (y : String),
      y ∈ l.foldl insertUnique acc ↔ y ∈ acc ∨ y ∈ l := by
  intro l
  induction l with
  | nil => simp
  | cons x xs ih =>
    intro acc y
    simp only [List.foldl_cons, ih, mem_insertUnique, List.mem_cons]
    tauto

theorem mem_dedupFirst {l : List String} {y : String} : y ∈ dedupFirst l ↔ y ∈ l := by
  unfold dedupFirst
  rw [foldl_insertUnique_mem]
  simp

theorem nodup_insertUnique {l : List String} {x : String} (h : l.Nodup) :
    (insertUnique l x).Nodup := by
  unfold insertUnique
  split
  · exact h
  · rename_i hx
    refine List.Nodup.append h (List.nodup_singleton x) ?_
    intro a ha hb
    simp only [List.mem_singleton] at hb
    exact hx (hb ▸ ha)

theorem dedupFirst_nodup (l : List String) : (dedupFirst l).Nodup := by
  have key : ∀ (l acc : List String), acc.Nodup → (l.foldl insertUnique acc).Nodup := by
    intro l
    induction l with
    | nil => intro acc h; exact h
    | cons x xs ih => intro acc h; exact ih _ (nodup_insertUnique h)
  exact key l [] List.nodup_nil

theorem foldl_insertUnique_of_nodup :
    ∀ (l acc : List String), (acc ++ l).Nodup → l.foldl insertUnique acc = acc ++ l := by
  intro l
  induction l with
  | nil => intro acc _; simp
  | cons x xs ih =>
    intro acc h
    obtain ⟨h1, h2, hd⟩ := List.nodup_append.mp h
    have hx : x ∉ acc := fun hmem => hd hmem (List.mem_cons_self x xs)
    have hset : insertUnique acc x = acc ++ [x] := by
      unfold insertUnique
      rw [if_neg hx]
    rw [List.foldl_cons, hset, ih (acc ++ [x]) (by rw [List.append_assoc]; simpa using h)]
    simp

theorem dedupFirst_eq_self {l : List String} (h : l.Nodup) : dedupFirst l = l :=
  foldl_insertUnique_of_nodup l [] (by simpa using h)

theorem mem_outgoingOf {edges : List (String × String)} {u v : String} :
    v ∈ outgoingOf edges u ↔ (u, v) ∈ edges := by
  unfold outgoingOf
  rw [mem_dedupFirst]
  simp only [List.mem_map, List.mem_filter, decide_eq_true_eq]
  constructor
  · rintro ⟨e, ⟨he, hu⟩, hv⟩
    have : e = (u, v) := by
      cases e
      simp only at hu hv
      simp [hu, hv]
    exact this ▸ he
  · intro h
    exact ⟨(u, v), ⟨h, rfl⟩, rfl⟩

/- ----- Context update lemmas ----- -/

theorem ctxGet_map_set_ne (ctx : Context) (k k' : String) (v : JValue) (h : k' ≠ k) :
    ctxGet (ctx.map (fun p => if p.1 = k then (k, v) else p)) k' = ctxGet ctx k' := by
  induction ctx with
  | nil => rfl
  | cons p rest ih =>
    by_cases hp : p.1 = k
    · simp only [ctxGet, List.map_cons, if_pos hp, List.find?_cons]
      have hk' : (decide (k = k')) = false := decide_eq_false (fun e => h e.symm)
      have hp' : (decide (p.1 = k')) = false :=
        decide_eq_false (fun e => h (e.symm.trans hp))
      rw [hk', hp']
      exact ih
    · simp only [ctxGet, List.map_cons, if_neg hp, List.find?_cons]
      cases hd : decide (p.1 = k')
      · exact ih
      · rfl

theorem ctxGet_map_set_self (ctx : Context) (k : String) (v : JValue)
    (h : ctx.any (fun p => p.1 = k) = true) :
    ctxGet (ctx.map (fun p => if p.1 = k then (k, v) else p)) k = some v := by
  induction ctx with
  | nil => simp at h
  | cons p rest ih =>
    by_cases hp : p.1 = k
    · simp [ctxGet, List.find?_cons, if_pos hp]
    · have h' : rest.any (fun p => p.1 = k) = true := by
        simp only [List.any_cons] at h
        rcases Bool.or_eq_true_iff.mp h with h1 | h2
        · exact absurd (of_decide_eq_true h1) hp
        · exact h2
      simp only [ctxGet, List.map_cons, if_neg hp, List.find?_cons]
      have : (decide (p.1 = k)) = false := decide_eq_false hp
      rw [this]
      exact ih h'

theorem ctxGet_append_single_self (ctx : Context) (k : String) (v : JValue)
    (h : ctx.any (fun p => p.1 = k) = false) :
    ctxGet (ctx ++ [(k, v)]) k = some v := by
  induction ctx with
  | nil => simp [ctxGet]
  | cons p rest ih =>
    simp only [List.any_cons, Bool.or_eq_false_iff] at h
    simp only [ctxGet, List.cons_append, List.find?_cons]
    rw [show (decide (p.1 = k)) = false from h.1]
    exact ih h.2

theorem ctxGet_append_single_ne (ctx : Context) (k k' : String) (v : JValue) (h : k' ≠ k) :
    ctxGet (ctx ++ [(k, v)]) k' = ctxGet ctx k' := by
  induction ctx with
  | nil =>
    simp only [ctxGet, List.nil_append, List.find?_cons, List.find?_nil]
    rw [show (decide (k = k')) = false from decide_eq_false (fun e => h e.symm)]
  | cons p rest ih =>
    simp only [ctxGet, List.cons_append, List.find?_cons] at ih ⊢
    cases hd : decide (p.1 = k')
    · exact ih
    · rfl

theorem ctxGet_ctxSet_self (ctx : Context) (k : String) (v : JValue) :
    ctxGet (ctxSet ctx k v) k = some v := by
  unfold ctxSet
  split
  · exact ctxGet_map_set_self ctx k v (by assumption)
  · exact ctxGet_append_single_self ctx k v (by rename_i h; exact Bool.eq_false_iff.mpr h)

theorem ctxGet_ctxSet_ne (ctx : Context) (k k' : String) (v : JValue) (h : k' ≠ k) :
    ctxGet (ctxSet ctx k v) k' = ctxGet ctx k' := by
  unfold ctxSet
  split
  · exact ctxGet_map_set_ne ctx k k' v h
  · exact ctxGet_append_single_ne ctx k k' v h

theorem keySuperset_refl (c : Context) : keySuperset c c := fun _ h => h

theorem keySuperset_ctxSet (c : Context) (k : String) (v : JValue) :
    keySuperset c (ctxSet c k v) := by
  intro k' h
  by_cases hk : k' = k
  · rw [hk, ctxGet_ctxSet_self]
    rfl
  · rw [ctxGet_ctxSet_ne c k k' v hk]
    exact h

theorem keySuperset_trans {a b c : Context} (h1 : keySuperset a b) (h2 : keySuperset b c) :
    keySuperset a c := fun k h => h2 k (h1 k h)

/-- C4: the claim that the calculator tool validates the token set before
any evaluation and rejects every input containing an identifier outside
the allowed set.  The second half fails on the code: the validator
deletes `Math.<word>` occurrences before the character check, so
`Math.max(1,2)` — whose identifier `max` is outside the allowed set —
passes validation and is handed to the JS evaluator.  The claim's
concrete scenario does hold: `require('fs')` is rejected before
evaluation, for every evaluator. -/
theorem C4_calculator_validation_gap :
    (∀ evalOracle, calculatorToolExecute evalOracle "require(\x27fs\x27)" =
      "Error: Expression contains unsafe characters. Only numbers, operators (+,-,*,/,%,**), and Math functions are allowed.") ∧
    specHasDisallowedCalcIdent "require(\x27fs\x27)" = true ∧
    specHasDisallowedCalcIdent "Math.max(1,2)" = true ∧
    calcValidationPasses "Math.max(1,2)" = true ∧
    (∀ evalOracle, calculatorToolExecute evalOracle "Math.max(1,2)" =
      evalOracle "Math.max(1,2)") := by
  refine ⟨fun ev => rfl, by decide, by decide, by decide, fun ev => rfl⟩

/-- C9: the claim that template evaluation applies no HTML escaping.
Prompts and bodies are compiled with Handlebars double-stache
substitution, which HTML-escapes its output: on the seed-test body
template, the referenced value `a&b` renders as `a&amp;b`, not the raw
JSON the claim requires; values without HTML-special characters (such
as `abc`) do render as claimed. -/
theorem C9_template_html_escaping_bug :
    renderTemplate c9tpl c9ctxAmp = Except.ok "\x7b\x22id\x22:\x22a&amp;b\x22\x7d" ∧
    renderTemplate c9tpl c9ctxAmp ≠ Except.ok "\x7b\x22id\x22:\x22a&b\x22\x7d" ∧
    renderTemplate c9tpl c9ctxPlain = Except.ok "\x7b\x22id\x22:\x22abc\x22\x7d" := by
  refine ⟨rfl, ?_, rfl⟩
  intro h
  exact absurd (Except.ok.inj h) (by decide)

/-- C6: the claim that a successful HTTP_REQUEST execution binds the
variable to `\x7bhttpResponse: ...\x7d`.  The executor actually writes
the misspelled key `httpResponce` (the spec itself flags this typo in
§9(c)): on a successful JSON response there is no `httpResponse` field
under the variable, while `httpResponce` holds the
`\x7bstatus, statusText, data\x7d` record; the data field is the parsed
JSON body for JSON responses and the raw text otherwise, as claimed. -/
theorem C6_http_response_key_typo :
    ∃ ctx' : Context,
      (httpRequestExecutor c6node [] {} c6oracle).output = Except.ok ctx' ∧
      (ctxGet ctx' "r").bind (fun v => jGet v "httpResponse") = none ∧
      (ctxGet ctx' "r").bind (fun v => jGet v "httpResponce") =
        some (JValue.obj [("status", JValue.num 200), ("statusText", JValue.str "OK"),
          ("data", c6json)]) ∧
      ∃ ctxT : Context,
        (httpRequestExecutor c6node [] {} c6oracleText).output = Except.ok ctxT ∧
        (ctxGet ctxT "r").bind (fun v => jGet v "httpResponce") =
          some (JValue.obj [("status", JValue.num 200), ("statusText", JValue.str "OK"),
            ("data", JValue.str "plain body")]) := by
  refine ⟨_, rfl, rfl, rfl, _, rfl, rfl⟩

/-- C8 counterexample: a workflow whose main edges form the two-node
cycle A→B→A but in which neither node is a trigger.  The claim requires
planning to fail with the cycle error; instead nothing is reachable from
a trigger, the cycle is discarded, planning succeeds with the empty
plan, and the run completes without publishing any event. -/
theorem C8_counterexample :
    isMainConnection cycE1 = true ∧ isMainConnection cycE2 = true ∧
    topologicalSort [cycPlainA, cycB] [cycE1, cycE2] = Except.ok [] ∧
    executeWorkflow {} (fun _ => {}) [cycPlainA, cycB] [cycE1, cycE2] [] =
      ([], [], Except.ok []) := ⟨rfl, rfl, rfl, rfl⟩

/-- C5: a cross-tenant `update_order_status` call performs no write and
returns the not-found error string; conversely the database only ever
changes when an order with the requested id belongs to the agent's
organization. -/
theorem C5_cross_tenant_update_rejected (g orderId : Nat) (ns : String) (db : List OrderRow) :
    ((∀ o ∈ db, o.order_id = orderId → o.org_id ≠ g) →
      (updateOrderStatus (some g) db orderId ns).1 = db ∧
      ∃ rest, (updateOrderStatus (some g) db orderId ns).2 =
        "Error: Order #" ++ toString orderId ++ " not found" ++ rest) ∧
    ((updateOrderStatus (some g) db orderId ns).1 ≠ db →
      ∃ o ∈ db, o.order_id = orderId ∧ o.org_id = g) := by
  constructor
  · intro hforeign
    have hnone : db.find? (fun o =>
        decide (o.order_id = orderId) && decide (o.org_id = g)) = none := by
      rw [List.find?_eq_none]
      intro o ho
      simp only [Bool.and_eq_true, decide_eq_true_eq, not_and]
      intro h1 h2
      exact hforeign o ho h1 h2
    unfold updateOrderStatus
    rw [hnone]
    refine ⟨rfl, " in your organization.", ?_⟩
    rw [String.append_assoc ("Error: Order #" ++ toString orderId)]
    rfl
  · intro hne
    rcases hfind : db.find? (fun o =>
        decide (o.order_id = orderId) && decide (o.org_id = g)) with _ | o
    · exfalso
      apply hne
      unfold updateOrderStatus
      rw [hfind]
    · have hp := List.find?_some hfind
      simp only [Bool.and_eq_true, decide_eq_true_eq] at hp
      exact ⟨o, List.mem_of_find?_eq_some hfind, hp.1, hp.2⟩

/-- C5 witness: order 42 belongs to org 2, the agent's org is 1; the
update is rejected with the not-found error and the table is
unchanged. -/
theorem C5_witness :
    (∀ o ∈ c5db, o.order_id = 42 → o.org_id ≠ 1) ∧
    (updateOrderStatus (some 1) c5db 42 "shipped").1 = c5db ∧
    ∃ rest, (updateOrderStatus (some 1) c5db 42 "shipped").2 =
      "Error: Order #" ++ toString 42 ++ " not found" ++ rest := by
  have h := (C5_cross_tenant_update_rejected 1 42 "shipped" c5db).1 (by decide)
  exact ⟨by decide, h.1, h.2⟩

/- ----- Tool assembly lemmas ----- -/

theorem toolLookup_map_set_ne (acc : List (String × ToolDescr)) (e : String × ToolDescr)
    (name : String) (h : name ≠ e.1) :
    toolLookup (acc.map (fun p => if p.1 = e.1 then e else p)) name = toolLookup acc name := by
  induction acc with
  | nil => rfl
  | cons p rest ih =>
    by_cases hp : p.1 = e.1
    · simp only [toolLookup, List.map_cons, if_pos hp, List.find?_cons]
      have hk' : (decide (e.1 = name)) = false := decide_eq_false (fun x => h x.symm)
      have hp' : (decide (p.1 = name)) = false :=
        decide_eq_false (fun x => h (x.symm.trans hp))
      rw [hk', hp']
      exact ih
    · simp only [toolLookup, List.map_cons, if_neg hp, List.find?_cons]
      cases hd : decide (p.1 = name)
      · exact ih
      · rfl

theorem toolLookup_map_set_self (acc : List (String × ToolDescr)) (e : String × ToolDescr)
    (h : acc.any (fun p => decide (p.1 = e.1)) = true) :
    toolLookup (acc.map (fun p => if p.1 = e.1 then e else p)) e.1 = some e.2 := by
  induction acc with
  | nil => simp at h
  | cons p rest ih =>
    by_cases hp : p.1 = e.1
    · simp [toolLookup, List.find?_cons, if_pos hp]
    · have h' : rest.any (fun p => decide (p.1 = e.1)) = true := by
        simp only [List.any_cons] at h
        rcases Bool.or_eq_true_iff.mp h with h1 | h2
        · exact absurd (of_decide_eq_true h1) hp
        · exact h2
      simp only [toolLookup, List.map_cons, if_neg hp, List.find?_cons]
      rw [decide_eq_false hp]
      exact ih h'

theorem toolLookup_append_single_self (acc : List (String × ToolDescr))
    (e : String × ToolDescr) (h : acc.any (fun p => decide (p.1 = e.1)) = false) :
    toolLookup (acc ++ [e]) e.1 = some e.2 := by
  induction acc with
  | nil => simp [toolLookup]
  | cons p rest ih =>
    simp only [List.any_cons, Bool.or_eq_false_iff] at h
    simp only [toolLookup, List.cons_append, List.find?_cons] at ih ⊢
    rw [h.1]
    exact ih h.2

theorem toolLookup_append_single_ne (acc : List (String × ToolDescr))
    (e : String × ToolDescr) (name : String) (h : name ≠ e.1) :
    toolLookup (acc ++ [e]) name = toolLookup acc name := by
  induction acc with
  | nil =>
    simp only [toolLookup, List.nil_append, List.find?_cons, List.find?_nil]
    rw [decide_eq_false (fun x => h x.symm)]
  | cons p rest ih =>
    simp only [toolLookup, List.cons_append, List.find?_cons] at ih ⊢
    cases hd : decide (p.1 = name)
    · exact ih
    · rfl

theorem toolLookup_toolsSet_self (acc : List (String × ToolDescr)) (e : String × ToolDescr) :
    toolLookup (toolsSet acc e) e.1 = some e.2 := by
  unfold toolsSet
  split
  · exact toolLookup_map_set_self acc e (by assumption)
  · exact toolLookup_append_single_self acc e (by rename_i h; exact Bool.eq_false_iff.mpr h)

theorem toolLookup_toolsSet_ne (acc : List (String × ToolDescr)) (e : String × ToolDescr)
    (name : String) (h : name ≠ e.1) :
    toolLookup (toolsSet acc e) name = toolLookup acc name := by
  unfold toolsSet
  split
  · exact toolLookup_map_set_ne acc e name h
  · exact toolLookup_append_single_ne acc e name h

theorem toolLookup_foldl_absent (name : String) :
    ∀ (es : List (String × ToolDescr)) (acc : List (String × ToolDescr)),
      (∀ e ∈ es, e.1 ≠ name) →
      toolLookup (es.foldl toolsSet acc) name = toolLookup acc name := by
  intro es
  induction es with
  | nil => intro acc _; rfl
  | cons e rest ih =>
    intro acc h
    rw [List.foldl_cons, ih _ (fun x hx => h x (List.mem_cons_of_mem e hx)),
      toolLookup_toolsSet_ne acc e name (fun x => h e (List.mem_cons_self e rest) x.symm)]

theorem toolLookup_foldl_hit (name : String) (d : ToolDescr) :
    ∀ (es : List (String × ToolDescr)) (acc : List (String × ToolDescr)),
      (name, d) ∈ es → (es.map Prod.fst).Nodup →
      toolLookup (es.foldl toolsSet acc) name = some d := by
  intro es
  induction es with
  | nil => intro acc h; exact absurd h (List.not_mem_nil _)
  | cons e rest ih =>
    intro acc hmem hnd
    rcases List.mem_cons.mp hmem with heq | htail
    · subst heq
      rw [List.foldl_cons,
        toolLookup_foldl_absent name rest (toolsSet acc (name, d)) ?_,
        toolLookup_toolsSet_self acc (name, d)]
      intro x hx he
      have : name ∈ rest.map Prod.fst := by
        rw [← he]; exact List.mem_map_of_mem Prod.fst hx
      exact (List.nodup_cons.mp hnd).1 this
    · rw [List.foldl_cons]
      exact ih _ htail (List.nodup_cons.mp hnd).2

theorem toolEntriesFor_names_nodup (n : ToolNodeRec) :
    ((toolEntriesFor n).map Prod.fst).Nodup := by
  unfold toolEntriesFor
  split_ifs <;> simp

theorem toolsSet_keys (acc : List (String × ToolDescr)) (e : String × ToolDescr) :
    ((toolsSet acc e).map Prod.fst).Nodup ↔ (acc.map Prod.fst).Nodup ∨ False := by
  constructor
  · intro h
    left
    unfold toolsSet at h
    split at h
    · have : (acc.map (fun p => if p.1 = e.1 then e else p)).map Prod.fst = acc.map Prod.fst := by
        rw [List.map_map]
        apply List.map_congr_left
        intro p _
        by_cases hp : p.1 = e.1
        · simp [hp]
        · simp [hp]
      rw [this] at h
      exact h
    · simp only [List.map_append] at h
      exact (List.nodup_append.mp h).1
  · rintro (h | h)
    · unfold toolsSet
      split
      · have heq : (acc.map (fun p => if p.1 = e.1 then e else p)).map Prod.fst
            = acc.map Prod.fst := by
          rw [List.map_map]
          apply List.map_congr_left
          intro p _
          by_cases hp : p.1 = e.1
          · simp [hp]
          · simp [hp]
        rw [heq]
        exact h
      · rename_i hany
        have hnot : e.1 ∉ acc.map Prod.fst := by
          intro hc
          apply hany
          rcases List.mem_map.mp hc with ⟨p, hp, he⟩
          exact List.any_eq_true.mpr ⟨p, hp, by simp [he]⟩
        simp only [List.map_append, List.map_cons, List.map_nil]
        refine List.Nodup.append h (List.nodup_singleton _) ?_
        intro a ha hb
        simp only [List.mem_singleton] at hb
        exact hnot (hb ▸ ha)
    · exact h.elim

theorem foldl_toolsSet_keys_nodup :
    ∀ (es : List (String × ToolDescr)) (acc : List (String × ToolDescr)),
      (acc.map Prod.fst).Nodup → ((es.foldl toolsSet acc).map Prod.fst).Nodup := by
  intro es
  induction es with
  | nil => intro acc h; exact h
  | cons e er ihe =>
    intro acc h
    exact ihe _ ((toolsSet_keys acc e).mpr (Or.inl h))

theorem buildTools_keys_nodup_aux :
    ∀ (ns : List ToolNodeRec) (acc : List (String × ToolDescr)),
      (acc.map Prod.fst).Nodup →
      ((ns.foldl (fun acc n => (toolEntriesFor n).foldl toolsSet acc) acc).map Prod.fst).Nodup := by
  intro ns
  induction ns with
  | nil => intro acc h; exact h
  | cons n rest ih =>
    intro acc h
    rw [List.foldl_cons]
    exact ih _ (foldl_toolsSet_keys_nodup _ acc h)

/-- C10: SEND_EMAIL, WEB_SCRAPER, CALCULATOR, INVENTORY_LOOKUP and
ORDER_MANAGER tool sub-nodes register under fixed names independent of
their configured `variableName`; the assembled tool object has at most
one entry per name; and when several processed sub-nodes register the
same name, the last-processed one's descriptor is the one that remains. -/
theorem C10_fixed_tool_names :
    (∀ n : ToolNodeRec, n.type = "SEND_EMAIL" →
      toolEntriesFor n = [("send_email", ⟨n.id, "send_email"⟩)]) ∧
    (∀ n : ToolNodeRec, n.type = "WEB_SCRAPER" →
      toolEntriesFor n = [("web_scraper", ⟨n.id, "web_scraper"⟩)]) ∧
    (∀ n : ToolNodeRec, n.type = "CALCULATOR" →
      toolEntriesFor n = [("calculator", ⟨n.id, "calculator"⟩)]) ∧
    (∀ n : ToolNodeRec, n.type = "INVENTORY_LOOKUP" →
      toolEntriesFor n = [("search_products", ⟨n.id, "search_products"⟩),
        ("list_warehouses", ⟨n.id, "list_warehouses"⟩)]) ∧
    (∀ n : ToolNodeRec, n.type = "ORDER_MANAGER" →
      toolEntriesFor n = [("search_orders", ⟨n.id, "search_orders"⟩),
        ("update_order_status", ⟨n.id, "update_order_status"⟩),
        ("get_order_stats", ⟨n.id, "get_order_stats"⟩)]) ∧
    (∀ ns : List ToolNodeRec, ((buildToolsFromNodes ns).map Prod.fst).Nodup) ∧
    (∀ (l₁ l₂ : List ToolNodeRec) (n : ToolNodeRec) (name : String) (d : ToolDescr),
      (name, d) ∈ toolEntriesFor n →
      (∀ m ∈ l₂, ∀ e ∈ toolEntriesFor m, e.1 ≠ name) →
      toolLookup (buildToolsFromNodes (l₁ ++ n :: l₂)) name = some d) := by
  refine ⟨?_, ?_, ?_, ?_, ?_, ?_, ?_⟩
  · intro n h; simp [toolEntriesFor, h]
  · intro n h; simp [toolEntriesFor, h]
  · intro n h; simp [toolEntriesFor, h]
  · intro n h; simp [toolEntriesFor, h]
  · intro n h; simp [toolEntriesFor, h]
  · intro ns
    exact buildTools_keys_nodup_aux ns [] (by simp)
  · intro l₁ l₂ n name d hmem habsent
    unfold buildToolsFromNodes
    rw [List.foldl_append, List.foldl_cons]
    have hlast : ∀ (l : List ToolNodeRec) (acc : List (String × ToolDescr)),
        (∀ m ∈ l, ∀ e ∈ toolEntriesFor m, e.1 ≠ name) →
        toolLookup (l.foldl (fun acc n => (toolEntriesFor n).foldl toolsSet acc) acc) name
          = toolLookup acc name := by
      intro l
      induction l with
      | nil => intro acc _; rfl
      | cons m rest ih =>
        intro acc h
        rw [List.foldl_cons, ih _ (fun x hx => h x (List.mem_cons_of_mem m hx)),
          toolLookup_foldl_absent name _ acc
            (fun e he => h m (List.mem_cons_self m rest) e he)]
    rw [hlast l₂ _ habsent]
    exact toolLookup_foldl_hit name d _ _ hmem (toolEntriesFor_names_nodup n)

/-- C10 witness: two calculator sub-nodes with different variable names
both register the fixed name "calculator"; the assembled set has a
single calculator entry carrying the second node's descriptor. -/
theorem C10_witness :
    (("calculator", (⟨"calcnode2", "calculator"⟩ : ToolDescr)) ∈ toolEntriesFor c10calc2) ∧
    toolLookup (buildToolsFromNodes [c10calc1, c10calc2]) "calculator" =
      some ⟨"calcnode2", "calculator"⟩ ∧
    ((buildToolsFromNodes [c10calc1, c10calc2]).map Prod.fst).Nodup := by
  have h := C10_fixed_tool_names
  refine ⟨by decide, ?_, h.2.2.2.2.2.1 [c10calc1, c10calc2]⟩
  have := h.2.2.2.2.2.2 [c10calc1] [] c10calc2 "calculator" ⟨"calcnode2", "calculator"⟩
    (by decide) (by intro m hm; exact absurd hm (List.not_mem_nil m))
  simpa using this

/- ----- Planner lemmas: BFS soundness ----- -/

theorem bfsReach_sound (adj : String → List String) (roots : List String) :
    ∀ (fuel : Nat) (reached queue : List String),
      (∀ x ∈ reached, ReachFrom adj roots x) →
      (∀ x ∈ queue, ReachFrom adj roots x) →
      ∀ x ∈ bfsReach adj fuel reached queue, ReachFrom adj roots x := by
  intro fuel
  induction fuel with
  | zero =>
    intro reached queue h1 _ x hx
    exact h1 x hx
  | succ fuel ih =>
    intro reached queue h1 h2 x hx
    match queue with
    | [] => exact h1 x hx
    | current :: rest =>
      by_cases hc : current ∈ reached
      · rw [bfsReach, if_pos hc] at hx
        exact ih _ _ h1 (fun y hy => h2 y (List.mem_cons_of_mem _ hy)) x hx
      · rw [bfsReach, if_neg hc] at hx
        have hcur : ReachFrom adj roots current := h2 current (List.mem_cons_self _ _)
        refine ih _ _ ?_ ?_ x hx
        · intro y hy
          rcases List.mem_append.mp hy with h | h
          · exact h1 y h
          · rw [List.mem_singleton] at h
            exact h ▸ hcur
        · intro y hy
          rcases List.mem_append.mp hy with h | h
          · exact h2 y (List.mem_cons_of_mem _ h)
          · exact ReachFrom.step hcur (List.mem_filter.mp h).1

/- ----- Planner lemmas: the toposort depth-first search ----- -/

theorem VisitInv_nil (adj : String → List String) : VisitInv adj [] [] [] := by
  refine ⟨List.nodup_nil, ?_, ?_, ?_, ?_⟩ <;> simp

theorem VisitInv_push (adj : String → List String) {preds v acc : List String} {node : String}
    (hinv : VisitInv adj preds v acc) (hp : node ∉ preds) (hv : node ∉ v) :
    VisitInv adj (node :: preds) (node :: v) acc := by
  obtain ⟨hnd, hav, hva, hap, hord⟩ := hinv
  refine ⟨hnd, ?_, ?_, ?_, hord⟩
  · intro x hx
    exact List.mem_cons_of_mem _ (hav x hx)
  · intro x hx
    rcases List.mem_cons.mp hx with rfl | hx'
    · exact Or.inr (List.mem_cons_self _ _)
    · rcases hva x hx' with h | h
      · exact Or.inl h
      · exact Or.inr (List.mem_cons_of_mem _ h)
  · intro x hx hmem
    rcases List.mem_cons.mp hmem with rfl | h
    · exact hv (hav x hx)
    · exact hap x hx h

theorem VisitInv_pop (adj : String → List String) {preds v2 acc2 : List String} {node : String}
    (hinv : VisitInv adj (node :: preds) v2 acc2) (hp : node ∉ preds)
    (hchildren : ∀ c ∈ adj node, c ∈ acc2) (hnode : node ∈ v2) :
    VisitInv adj preds v2 (node :: acc2) := by
  obtain ⟨hnd, hav, hva, hap, hord⟩ := hinv
  have hnacc : node ∉ acc2 := fun hx => hap node hx (List.mem_cons_self _ _)
  refine ⟨List.nodup_cons.mpr ⟨hnacc, hnd⟩, ?_, ?_, ?_, ?_⟩
  · intro x hx
    rcases List.mem_cons.mp hx with rfl | hx'
    · exact hnode
    · exact hav x hx'
  · intro x hx
    rcases hva x hx with h | h
    · exact Or.inl (List.mem_cons_of_mem _ h)
    · rcases List.mem_cons.mp h with rfl | h'
      · exact Or.inl (List.mem_cons_self _ _)
      · exact Or.inr h'
  · intro x hx hmem
    rcases List.mem_cons.mp hx with rfl | hx'
    · exact hp hmem
    · exact hap x hx' (List.mem_cons_of_mem _ hmem)
  · intro u c hu hc
    rcases List.mem_cons.mp hu with rfl | hu'
    · exact List.Sublist.cons₂ u (List.singleton_sublist.mpr (hchildren c hc))
    · exact List.Sublist.cons node (hord u c hu' hc)

theorem visitFold_spec (adj : String → List String) (fuel : Nat)
    (hv : ∀ (preds : List String) (node : String) (v acc v' acc' : List String),
      visit adj fuel preds node (v, acc) = Except.ok (v', acc') →
      VisitInv adj preds v acc →
      VisitInv adj preds v' acc' ∧ (∀ x ∈ v, x ∈ v') ∧ (∃ pre, acc' = pre ++ acc) ∧
        node ∈ acc') :
    ∀ (cs : List String) (preds : List String) (v acc v' acc' : List String),
      cs.foldlM (fun st c => visit adj fuel preds c st) (v, acc) = Except.ok (v', acc') →
      VisitInv adj preds v acc →
      VisitInv adj preds v' acc' ∧ (∀ x ∈ v, x ∈ v') ∧ (∃ pre, acc' = pre ++ acc) ∧
        ∀ c ∈ cs, c ∈ acc' := by
  intro cs
  induction cs with
  | nil =>
    intro preds v acc v' acc' h hinv
    simp only [List.foldlM_nil] at h
    cases h
    exact ⟨hinv, fun x hx => hx, ⟨[], rfl⟩, by simp⟩
  | cons c cs ih =>
    intro preds v acc v' acc' h hinv
    simp only [List.foldlM_cons] at h
    rcases hvc : visit adj fuel preds c (v, acc) with e | st1
    · rw [hvc] at h
      exact absurd h (by simp [Bind.bind, Except.bind])
    · rcases st1 with ⟨v1, acc1⟩
      rw [hvc] at h
      have h' : cs.foldlM (fun st c => visit adj fuel preds c st) (v1, acc1) =
          Except.ok (v', acc') := h
      have h1 := hv preds c v acc v1 acc1 hvc hinv
      have h2 := ih preds v1 acc1 v' acc' h' h1.1
      refine ⟨h2.1, fun x hx => h2.2.1 x (h1.2.1 x hx), ?_, ?_⟩
      · rcases h1.2.2.1 with ⟨p1, hp1⟩
        rcases h2.2.2.1 with ⟨p2, hp2⟩
        exact ⟨p2 ++ p1, by rw [hp2, hp1, List.append_assoc]⟩
      · intro x hx
        rcases List.mem_cons.mp hx with rfl | hxs
        · rcases h2.2.2.1 with ⟨p2, hp2⟩
          rw [hp2]
          exact List.mem_append_right p2 h1.2.2.2
        · exact h2.2.2.2 x hxs

theorem visit_ok_spec (adj : String → List String) :
    ∀ (fuel : Nat) (preds : List String) (node : String) (v acc v' acc' : List String),
      visit adj fuel preds node (v, acc) = Except.ok (v', acc') →
      VisitInv adj preds v acc →
      VisitInv adj preds v' acc' ∧ (∀ x ∈ v, x ∈ v') ∧ (∃ pre, acc' = pre ++ acc) ∧
        node ∈ acc' := by
  intro fuel
  induction fuel with
  | zero =>
    intro preds node v acc v' acc' h
    exact absurd h (by simp [visit])
  | succ fuel ih =>
    intro preds node v acc v' acc' h hinv
    rw [visit] at h
    by_cases hp : node ∈ preds
    · rw [if_pos hp] at h
      exact absurd h (by simp)
    · rw [if_neg hp] at h
      by_cases hvmem : node ∈ v
      · rw [if_pos hvmem] at h
        simp only [Except.ok.injEq, Prod.mk.injEq] at h
        obtain ⟨rfl, rfl⟩ := h
        have hnode : node ∈ acc := by
          rcases hinv.2.2.1 node hvmem with h' | h'
          · exact h'
          · exact absurd h' hp
        exact ⟨hinv, fun x hx => hx, ⟨[], rfl⟩, hnode⟩
      · rw [if_neg hvmem] at h
        rcases hfold : ((adj node).reverse).foldlM
            (fun st c => visit adj fuel (node :: preds) c st) (node :: v, acc)
          with e | st2
        · rw [hfold] at h
          exact absurd h (by simp [Except.map])
        · rcases st2 with ⟨v2, acc2⟩
          rw [hfold] at h
          simp only [Except.map, Except.ok.injEq, Prod.mk.injEq] at h
          obtain ⟨rfl, rfl⟩ := h
          have hinv' : VisitInv adj (node :: preds) (node :: v) acc :=
            VisitInv_push adj hinv hp hvmem
          have hfs := visitFold_spec adj fuel ih _ _ _ _ _ _ hfold hinv'
          have hchildren : ∀ c ∈ adj node, c ∈ acc2 := by
            intro c hc
            exact hfs.2.2.2 c (List.mem_reverse.mpr hc)
          have hnodev2 : node ∈ v2 := hfs.2.1 node (List.mem_cons_self _ _)
          refine ⟨VisitInv_pop adj hfs.1 hp hchildren hnodev2, ?_, ?_, ?_⟩
          · intro x hx
            exact hfs.2.1 x (List.mem_cons_of_mem _ hx)
          · rcases hfs.2.2.1 with ⟨p2, hp2⟩
            exact ⟨node :: p2, by rw [hp2]; rfl⟩
          · exact List.mem_cons_self _ _

theorem toposortLib_ok_spec {edges : List (String × String)} {out : List String}
    (h : toposortLib edges = Except.ok out) :
    out.Nodup ∧ (∀ u v, u ∈ out → (u, v) ∈ edges → [u, v].Sublist out) ∧
      ∀ n ∈ uniqueNodes edges, n ∈ out := by
  simp only [toposortLib] at h
  rcases hfold : ((uniqueNodes edges).reverse).foldlM
      (fun st n => visit (outgoingOf edges) ((uniqueNodes edges).length + 1) [] n st)
      ([], []) with e | st
  · rw [hfold] at h
    exact absurd h (by simp [Except.map])
  · rcases st with ⟨vfin, accfin⟩
    rw [hfold] at h
    simp only [Except.map] at h
    cases h
    have hfs := visitFold_spec (outgoingOf edges) ((uniqueNodes edges).length + 1)
      (fun a b c d e f => visit_ok_spec (outgoingOf edges) _ a b c d e f)
      _ _ _ _ _ _ hfold (VisitInv_nil _)
    obtain ⟨⟨hnd, _, _, _, hord⟩, _, _, hall⟩ := hfs
    refine ⟨hnd, ?_, ?_⟩
    · intro u v hu huv
      exact hord u v hu (mem_outgoingOf.mpr huv)
    · intro n hn
      exact hall n (List.mem_reverse.mpr hn)

theorem planReach_sound {nodes : List DbNode} {conns : List WConnection} {x : String}
    (h : (planReach nodes conns).contains x = true) :
    ReachFrom (adjacencyOf (planMains conns)) (planTriggerIds nodes) x := by
  have hx : x ∈ planReach nodes conns := List.elem_iff.mp h
  exact bfsReach_sound (adjacencyOf (planMains conns)) (planTriggerIds nodes) _ [] _
    (by simp) (fun y hy => ReachFrom.root hy) x hx

theorem mem_planReachableNodes {nodes : List DbNode} {conns : List WConnection} {n : DbNode}
    (h : n ∈ planReachableNodes nodes conns) :
    n ∈ nodes ∧ (planReach nodes conns).contains n.id = true :=
  List.mem_filter.mp h

theorem nodeMapFind_spec {ns : List DbNode} {i : String} {n : DbNode}
    (h : nodeMapFind ns i = some n) : n ∈ ns ∧ n.id = i := by
  unfold nodeMapFind at h
  have h1 : n ∈ ns.reverse := List.mem_of_find?_eq_some h
  have h2 := List.find?_some h
  simp only [decide_eq_true_eq] at h2
  exact ⟨List.mem_reverse.mp h1, h2⟩

theorem mem_planReachableEdges {nodes : List DbNode} {conns : List WConnection}
    {c : WConnection} (hc : c ∈ planMains conns)
    (hfrom : (planReach nodes conns).contains c.fromNodeId = true)
    (hto : (planReach nodes conns).contains c.toNodeId = true) :
    (c.fromNodeId, c.toNodeId) ∈ planReachableEdges nodes conns := by
  unfold planReachableEdges
  exact List.mem_map_of_mem _ (List.mem_filter.mpr ⟨hc, by rw [hfrom, hto]; rfl⟩)

theorem map_filterMap_sublist {α β : Type} (f : α → Option β) (g : β → α)
    (h : ∀ a b, f a = some b → g b = a) :
    ∀ l : List α, ((l.filterMap f).map g).Sublist l := by
  intro l
  induction l with
  | nil => simp
  | cons a l ih =>
    rw [List.filterMap_cons]
    cases hf : f a with
    | none => exact ih.cons a
    | some b =>
      rw [List.map_cons, h a b hf]
      exact ih.cons₂ a

/-- C1 (amended): whenever planning succeeds, every planned node is
reachable from some trigger over main-flow edges, no node appears twice,
and for every main-flow edge with both endpoints in the plan the source
precedes the target.  (The claim's "exactly the nodes reachable" fails:
see the counterexample — a reachable node touching no reachable edge is
dropped when any reachable edge exists.) -/
theorem C1_plan_soundness (nodes : List DbNode) (conns : List WConnection)
    (plan : List DbNode) (hids : (nodes.map DbNode.id).Nodup)
    (h : topologicalSort nodes conns = Except.ok plan) :
    (∀ n ∈ plan, ReachFrom (adjacencyOf (planMains conns)) (planTriggerIds nodes) n.id) ∧
    (plan.map DbNode.id).Nodup ∧
    (∀ c ∈ planMains conns, ∀ nu ∈ plan, ∀ nv ∈ plan,
      nu.id = c.fromNodeId → nv.id = c.toNodeId → [nu, nv].Sublist plan) := by
  unfold topologicalSort at h
  by_cases hempty : (planReachableEdges nodes conns).isEmpty = true
  · rw [if_pos hempty] at h
    have hplan : plan = planReachableNodes nodes conns := by
      injection h with h'
      exact h'.symm
    subst hplan
    refine ⟨?_, ?_, ?_⟩
    · intro n hn
      exact planReach_sound (mem_planReachableNodes hn).2
    · have hsub : ((planReachableNodes nodes conns).map DbNode.id).Sublist
          (nodes.map DbNode.id) :=
        List.Sublist.map DbNode.id (List.filter_sublist nodes)
      exact hsub.nodup hids
    · intro c hc nu hnu nv hnv hu hv
      exfalso
      have hedge : (c.fromNodeId, c.toNodeId) ∈ planReachableEdges nodes conns :=
        mem_planReachableEdges hc (hu ▸ (mem_planReachableNodes hnu).2)
          (hv ▸ (mem_planReachableNodes hnv).2)
      rw [List.isEmpty_iff] at hempty
      rw [hempty] at hedge
      exact List.not_mem_nil _ hedge
  · rw [if_neg hempty] at h
    rcases htopo : toposortLib (planReachableEdges nodes conns) with e | ids
    · rw [htopo] at h
      cases h
    · rw [htopo] at h
      have hplan : plan = (dedupFirst ids).filterMap
          (fun i => nodeMapFind (planReachableNodes nodes conns) i) := by
        injection h with h'
        exact h'.symm
      obtain ⟨hnd, hord, _⟩ := toposortLib_ok_spec htopo
      rw [dedupFirst_eq_self hnd] at hplan
      subst hplan
      have hfspec : ∀ i n, nodeMapFind (planReachableNodes nodes conns) i = some n →
          n.id = i := fun i n hf => (nodeMapFind_spec hf).2
      refine ⟨?_, ?_, ?_⟩
      · intro n hn
        obtain ⟨i, _, hf⟩ := List.mem_filterMap.mp hn
        exact planReach_sound (mem_planReachableNodes (nodeMapFind_spec hf).1).2
      · have hsub := map_filterMap_sublist
          (fun i => nodeMapFind (planReachableNodes nodes conns) i) DbNode.id hfspec ids
        exact hsub.nodup hnd
      · intro c hc nu hnu nv hnv hu hv
        obtain ⟨iu, hiu, hfu⟩ := List.mem_filterMap.mp hnu
        obtain ⟨iv, hiv, hfv⟩ := List.mem_filterMap.mp hnv
        have hiu' : iu = c.fromNodeId := (hfspec _ _ hfu).symm.trans hu
        have hiv' : iv = c.toNodeId := (hfspec _ _ hfv).symm.trans hv
        subst hiu' hiv'
        have hedge : (nu.id, nv.id) ∈ planReachableEdges nodes conns := by
          have := mem_planReachableEdges hc
            (hu ▸ (mem_planReachableNodes (nodeMapFind_spec hfu).1).2)
            (hv ▸ (mem_planReachableNodes (nodeMapFind_spec hfv).1).2)
          rw [hu, hv]
          exact this
        have hids : [nu.id, nv.id].Sublist ids := hord nu.id nv.id (hu ▸ hiu) hedge
        have := List.Sublist.filterMap
          (fun i => nodeMapFind (planReachableNodes nodes conns) i) hids
        rw [List.filterMap_cons, hu, hfu] at this
        rw [List.filterMap_cons, hv, hfv] at this
        simpa using this

/-- C1 counterexample: in the workflow with triggers T1, T2 and the
single main edge T1 → A, node T2 is reachable (it is itself a trigger)
but the plan is exactly [T1, A]: the planner's output is not "exactly
the nodes reachable from some trigger". -/
theorem C1_counterexample :
    topologicalSort exNodes exConns = Except.ok [exT1, exA] ∧
    ReachFrom (adjacencyOf (planMains exConns)) (planTriggerIds exNodes) "T2" ∧
    (∀ n ∈ [exT1, exA], n.id ≠ "T2") := by
  refine ⟨rfl, ReachFrom.root (by decide), by decide⟩

/-- C1 witness: the soundness theorem applied to the concrete T1 → A
workflow. -/
theorem C1_witness :
    (exNodes.map DbNode.id).Nodup ∧
    topologicalSort exNodes exConns = Except.ok [exT1, exA] ∧
    ((∀ n ∈ [exT1, exA],
        ReachFrom (adjacencyOf (planMains exConns)) (planTriggerIds exNodes) n.id) ∧
      (([exT1, exA] : List DbNode).map DbNode.id).Nodup ∧
      (∀ c ∈ planMains exConns, ∀ nu ∈ [exT1, exA], ∀ nv ∈ [exT1, exA],
        nu.id = c.fromNodeId → nv.id = c.toNodeId →
        [nu, nv].Sublist [exT1, exA])) := by
  refine ⟨by decide, rfl, C1_plan_soundness exNodes exConns [exT1, exA] (by decide) rfl⟩

/- ----- Cycle-detection lemmas ----- -/

theorem mem_foldl_insert2 :
    ∀ (es : List (String × String)) (acc : List String) (y : String),
      y ∈ es.foldl (fun a e => insertUnique (insertUnique a e.1) e.2) acc ↔
        y ∈ acc ∨ ∃ e ∈ es, y = e.1 ∨ y = e.2 := by
  intro es
  induction es with
  | nil => simp
  | cons e es ih =>
    intro acc y
    simp only [List.foldl_cons, ih, mem_insertUnique, List.mem_cons]
    constructor
    · rintro (((h | h) | h) | ⟨f, hf, h⟩)
      · exact Or.inl h
      · exact Or.inr ⟨e, Or.inl rfl, Or.inl h⟩
      · exact Or.inr ⟨e, Or.inl rfl, Or.inr h⟩
      · exact Or.inr ⟨f, Or.inr hf, h⟩
    · rintro (h | ⟨f, (rfl | hf), h⟩)
      · exact Or.inl (Or.inl (Or.inl h))
      · rcases h with h | h
        · exact Or.inl (Or.inl (Or.inr h))
        · exact Or.inl (Or.inr h)
      · exact Or.inr ⟨f, hf, h⟩

theorem mem_uniqueNodes {edges : List (String × String)} {u v : String}
    (h : (u, v) ∈ edges) : u ∈ uniqueNodes edges ∧ v ∈ uniqueNodes edges :=
  ⟨(mem_foldl_insert2 edges [] u).mpr (Or.inr ⟨(u, v), h, Or.inl rfl⟩),
   (mem_foldl_insert2 edges [] v).mpr (Or.inr ⟨(u, v), h, Or.inr rfl⟩)⟩

theorem foldlM_visit_error (adj : String → List String) (fuel : Nat) (preds : List String) :
    ∀ (cs : List String) (st : List String × List String) (e : String),
      cs.foldlM (fun st c => visit adj fuel preds c st) st = Except.error e →
      ∃ c st2, c ∈ cs ∧ visit adj fuel preds c st2 = Except.error e := by
  intro cs
  induction cs with
  | nil =>
    intro st e h
    simp only [List.foldlM_nil] at h
    exact Except.noConfusion h
  | cons c cs ih =>
    intro st e h
    simp only [List.foldlM_cons] at h
    rcases hv : visit adj fuel preds c st with e2 | st1
    · rw [hv] at h
      have h2 : (Except.error e2 : Except String (List String × List String)) =
          Except.error e := h
      injection h2 with h3
      exact ⟨c, st, List.mem_cons_self _ _, by rw [hv, h3]⟩
    · rw [hv] at h
      have h2 : cs.foldlM (fun st c => visit adj fuel preds c st) st1 =
          Except.error e := h
      obtain ⟨c2, st2, hc2, hv2⟩ := ih st1 e h2
      exact ⟨c2, st2, List.mem_cons_of_mem _ hc2, hv2⟩

/-- The library's `visit` never exhausts its fuel when the fuel exceeds
the number of distinct nodes minus the grey-ancestor depth: its only
error is the cyclic-dependency one. -/
theorem visit_error_cyclic (adj : String → List String) (bound : List String)
    (hadj : ∀ u c, c ∈ adj u → c ∈ bound) :
    ∀ (fuel : Nat) (preds : List String) (node : String)
      (st : List String × List String) (e : String),
      preds.Nodup → (∀ p ∈ preds, p ∈ bound) → node ∈ bound →
      bound.length + 1 ≤ preds.length + fuel →
      visit adj fuel preds node st = Except.error e →
      e = "Cyclic dependency detected" := by
  intro fuel
  induction fuel with
  | zero =>
    intro preds node st e hnd hsub _ hlen _
    exfalso
    have hle : preds.length ≤ bound.length :=
      (List.subperm_of_subset hnd (fun x hx => hsub x hx)).length_le
    omega
  | succ fuel ih =>
    intro preds node st e hnd hsub hnode hlen h
    rcases st with ⟨v, acc⟩
    rw [visit] at h
    by_cases hp : node ∈ preds
    · rw [if_pos hp] at h
      injection h with h2
      exact h2.symm
    · rw [if_neg hp] at h
      by_cases hv : node ∈ v
      · rw [if_pos hv] at h
        exact absurd h (by simp)
      · rw [if_neg hv] at h
        rcases hfold : ((adj node).reverse).foldlM
            (fun st c => visit adj fuel (node :: preds) c st) (node :: v, acc)
          with e2 | st2
        · rw [hfold] at h
          simp only [Except.map] at h
          injection h with h2
          obtain ⟨c, st3, hc, hvc⟩ := foldlM_visit_error adj fuel (node :: preds) _ _ _ hfold
          have hcb : c ∈ bound := hadj node c (List.mem_reverse.mp hc)
          have hrec := ih (node :: preds) c st3 e2
            (List.nodup_cons.mpr ⟨hp, hnd⟩)
            (fun p hp2 => by
              rcases List.mem_cons.mp hp2 with rfl | hh
              · exact hnode
              · exact hsub p hh)
            hcb
            (by simp only [List.length_cons]; omega)
            hvc
          rw [← h2]
          exact hrec
        · rw [hfold] at h
          exact absurd h (by simp [Except.map])

/-- The only error the toposort library can return is the
cyclic-dependency one: the fuel the entry point passes always
suffices. -/
theorem toposortLib_error_cyclic {edges : List (String × String)} {e : String}
    (h : toposortLib edges = Except.error e) : e = "Cyclic dependency detected" := by
  simp only [toposortLib] at h
  rcases hfold : ((uniqueNodes edges).reverse).foldlM
      (fun st n => visit (outgoingOf edges) ((uniqueNodes edges).length + 1) [] n st)
      ([], []) with e2 | st
  · rw [hfold] at h
    simp only [Except.map] at h
    injection h with h2
    obtain ⟨n, st2, hn, hv⟩ := foldlM_visit_error _ _ _ _ _ _ hfold
    rw [← h2]
    exact visit_error_cyclic (outgoingOf edges) (uniqueNodes edges)
      (fun u c hc => (mem_uniqueNodes (mem_outgoingOf.mp hc)).2)
      _ [] n st2 e2 List.nodup_nil (by simp) (List.mem_reverse.mp hn) (by simp) hv
  · rw [hfold] at h
    exact absurd h (by simp [Except.map])

theorem sublist_pair_indexOf {u v : String} :
    ∀ {L : List String}, L.Nodup → [u, v].Sublist L → L.indexOf u < L.indexOf v := by
  intro L
  induction L with
  | nil =>
    intro _ h
    exact absurd h (by simp)
  | cons a L ih =>
    intro hnd h
    obtain ⟨ha, hndL⟩ := List.nodup_cons.mp hnd
    cases h with
    | cons _ h2 =>
      have hu : u ∈ L := h2.subset (by simp)
      have hv : v ∈ L := h2.subset (by simp)
      have hau : a ≠ u := fun he => ha (he ▸ hu)
      have hav : a ≠ v := fun he => ha (he ▸ hv)
      rw [List.indexOf_cons_ne _ hau, List.indexOf_cons_ne _ hav]
      exact Nat.succ_lt_succ (ih hndL h2)
    | cons₂ _ h2 =>
      have hv : v ∈ L := h2.subset (by simp)
      have huv : u ≠ v := fun he => ha (he ▸ hv)
      rw [List.indexOf_cons_self, List.indexOf_cons_ne _ huv]
      exact Nat.succ_pos _

theorem edgePath_before {edges : List (String × String)} {out : List String}
    (hnd : out.Nodup)
    (hmem : ∀ a b, (a, b) ∈ edges → a ∈ out)
    (hord : ∀ a b, a ∈ out → (a, b) ∈ edges → [a, b].Sublist out) :
    ∀ {x y : String}, EdgePath edges x y → out.indexOf x < out.indexOf y := by
  intro x y hp
  induction hp with
  | single h => exact sublist_pair_indexOf hnd (hord _ _ (hmem _ _ h) h)
  | cons h _ ih =>
    exact Nat.lt_trans (sublist_pair_indexOf hnd (hord _ _ (hmem _ _ h) h)) ih

/-- A cycle among the edges makes the toposort library fail with its
cyclic-dependency error: a successful output would order every edge
strictly, which a cycle contradicts. -/
theorem toposortLib_cycle {edges : List (String × String)} {u : String}
    (hcyc : EdgePath edges u u) :
    toposortLib edges = Except.error "Cyclic dependency detected" := by
  rcases h : toposortLib edges with e | out
  · rw [toposortLib_error_cyclic h]
  · exfalso
    obtain ⟨hnd, hord, hmem⟩ := toposortLib_ok_spec h
    have h1 : ∀ a b, (a, b) ∈ edges → a ∈ out :=
      fun a b hab => hmem a (mem_uniqueNodes hab).1
    exact absurd (edgePath_before hnd h1 hord hcyc) (Nat.lt_irrefl _)

/-- A cycle among the trigger-reachable main edges makes the planner
fail with the mapped cycle message. -/
theorem topologicalSort_cycle {nodes : List DbNode} {conns : List WConnection} {u : String}
    (hcyc : EdgePath (planReachableEdges nodes conns) u u) :
    topologicalSort nodes conns = Except.error "Workflow contains a cycle" := by
  have hne : ¬ ((planReachableEdges nodes conns).isEmpty = true) := by
    intro hempty
    rw [List.isEmpty_iff] at hempty
    cases hcyc with
    | single h =>
      rw [hempty] at h
      exact List.not_mem_nil _ h
    | cons h _ =>
      rw [hempty] at h
      exact List.not_mem_nil _ h
  unfold topologicalSort
  rw [if_neg hne, toposortLib_cycle hcyc]
  rfl

/-- Every node of a successful plan is reachable from a trigger (so the
nodes of a trigger-unreachable cycle never appear in any plan). -/
theorem plan_reachable {nodes : List DbNode} {conns : List WConnection} {plan : List DbNode}
    (h : topologicalSort nodes conns = Except.ok plan) :
    ∀ n ∈ plan, ReachFrom (adjacencyOf (planMains conns)) (planTriggerIds nodes) n.id := by
  intro n hn
  unfold topologicalSort at h
  by_cases hempty : (planReachableEdges nodes conns).isEmpty = true
  · rw [if_pos hempty] at h
    injection h with h2
    rw [← h2] at hn
    exact planReach_sound (mem_planReachableNodes hn).2
  · rw [if_neg hempty] at h
    rcases htopo : toposortLib (planReachableEdges nodes conns) with e | ids
    · rw [htopo] at h
      cases h
    · rw [htopo] at h
      injection h with h2
      rw [← h2] at hn
      obtain ⟨i, _, hf⟩ := List.mem_filterMap.mp hn
      exact planReach_sound (mem_planReachableNodes (nodeMapFind_spec hf).1).2

/-- C8 (amended): for every workflow, a cycle in the trigger-reachable
main-flow sub-graph makes planning fail with "Workflow contains a
cycle" before any node executes and before any status event is
published — so the spec's two-node A→B→A scenario holds whenever one of
the two nodes is a trigger; a cycle unreachable from every trigger is
silently discarded instead: every node of a successful plan is
trigger-reachable, so the cycle's nodes never execute nor publish (and
the concrete trigger-less A→B→A workflow plans to the empty list with
no error and no events: see the counterexample). -/
theorem C8_cycle_rejection_amended :
    (∀ (nodes : List DbNode) (conns : List WConnection) (u : String),
      EdgePath (planReachableEdges nodes conns) u u →
      topologicalSort nodes conns = Except.error "Workflow contains a cycle" ∧
      ∀ (w : World) (of : String → Oracle) (init : Context),
        executeWorkflow w of nodes conns init =
          ([], [], Except.error "Workflow contains a cycle")) ∧
    (∀ (nodes : List DbNode) (conns : List WConnection) (plan : List DbNode),
      topologicalSort nodes conns = Except.ok plan →
      ∀ n ∈ plan,
        ReachFrom (adjacencyOf (planMains conns)) (planTriggerIds nodes) n.id) := by
  constructor
  · intro nodes conns u hcyc
    have ht := topologicalSort_cycle hcyc
    refine ⟨ht, ?_⟩
    intro w of init
    unfold executeWorkflow
    rw [ht]
  · intro nodes conns plan h
    exact plan_reachable h

/-- C8 witness: the amended theorem applied to the concrete two-node
cycle A→B→A — with a trigger the run aborts with the cycle error, and
the trigger-less variant plans successfully (to the empty list). -/
theorem C8_witness :
    EdgePath (planReachableEdges [cycTrigA, cycB] [cycE1, cycE2]) "A" "A" ∧
    topologicalSort [cycTrigA, cycB] [cycE1, cycE2] =
      Except.error "Workflow contains a cycle" ∧
    executeWorkflow {} (fun _ => {}) [cycTrigA, cycB] [cycE1, cycE2] [] =
      ([], [], Except.error "Workflow contains a cycle") ∧
    topologicalSort [cycPlainA, cycB] [cycE1, cycE2] = Except.ok [] ∧
    (∀ n ∈ ([] : List DbNode),
      ReachFrom (adjacencyOf (planMains [cycE1, cycE2]))
        (planTriggerIds [cycPlainA, cycB]) n.id) := by
  have hAB : (("A" : String), ("B" : String)) ∈
      planReachableEdges [cycTrigA, cycB] [cycE1, cycE2] := by decide
  have hBA : (("B" : String), ("A" : String)) ∈
      planReachableEdges [cycTrigA, cycB] [cycE1, cycE2] := by decide
  have hcyc : EdgePath (planReachableEdges [cycTrigA, cycB] [cycE1, cycE2]) "A" "A" :=
    EdgePath.cons hAB (EdgePath.single hBA)
  have h := C8_cycle_rejection_amended.1 [cycTrigA, cycB] [cycE1, cycE2] "A" hcyc
  exact ⟨hcyc, h.1, h.2 {} (fun _ => {}) [], rfl,
    C8_cycle_rejection_amended.2 [cycPlainA, cycB] [cycE1, cycE2] [] rfl⟩

/- ----- Memory window lemmas ----- -/

theorem effWindowSize_pos (m : Option NodeConfig) : 1 ≤ effWindowSize m := by
  unfold effWindowSize
  split
  · omega
  · rename_i x w hne heq
    have hw : w ≠ 0 := hne
    omega
  · omega

theorem sliceLast_length_le {α : Type} (n : Nat) (l : List α) :
    (sliceLast n l).length ≤ n := by
  simp only [sliceLast, List.length_drop]
  omega

theorem sliceLast_two_append {α : Type} (y : List α) (u a : α) :
    sliceLast 2 (y ++ [u, a]) = [u, a] := by
  unfold sliceLast
  have hlen : (y ++ [u, a]).length - 2 = y.length := by
    simp [List.length_append]
  rw [hlen]
  exact List.drop_left y [u, a]

theorem sliceLast_last_two {α : Type} (n : Nat) (l : List α) (u a : α) (h : 2 ≤ n) :
    sliceLast 2 (sliceLast n (l ++ [u, a])) = [u, a] := by
  have hk : (l ++ [u, a]).length - n ≤ l.length := by
    simp only [List.length_append, List.length_cons, List.length_nil]
    omega
  have h1 : sliceLast n (l ++ [u, a]) = l.drop ((l ++ [u, a]).length - n) ++ [u, a] := by
    unfold sliceLast
    exact List.drop_append_of_le_length hk
  rw [h1, sliceLast_two_append]

/-- C3: on every successful agent execution with a memory sub-node, the
defaults are `windowSize = 10` and `memoryKey = "chatHistory"`; the
generation call receives exactly the last `windowSize` turns of
`context[memoryKey]` followed by the new user prompt; and the history
written back is the stored history plus the user prompt and the model's
answer, truncated to at most `2 × windowSize` turns whose two most
recent turns are that user prompt and that answer. -/
theorem C3_memory_window (node : DbNode) (ctx : Context) (w : World) (o : Oracle)
    (ctx' : Context) (up upr : String)
    (hup : jsStr node.data.userPrompt = some up)
    (hupr : renderTemplate up ctx = Except.ok upr)
    (hmem : (discoverSubNodes w node.id).memory.isSome = true)
    (hok : (aiAgentExecutor node ctx w o).output = Except.ok ctx') :
    (∀ md : NodeConfig, md.windowSize = none → effWindowSize (some md) = 10) ∧
    (∀ md : NodeConfig, md.memoryKey = none → effMemoryKey (some md) = "chatHistory") ∧
    1 ≤ effWindowSize (discoverSubNodes w node.id).memory ∧
    ∃ text n,
      o.agentGen
          (sliceLast (effWindowSize (discoverSubNodes w node.id).memory)
              (decodeHistory (ctxGet ctx (effMemoryKey (discoverSubNodes w node.id).memory)))
            ++ [⟨"user", upr⟩])
        = Except.ok (text, n) ∧
      ctxGet ctx' (effMemoryKey (discoverSubNodes w node.id).memory) =
        some (encodeHistory
          (sliceLast (effWindowSize (discoverSubNodes w node.id).memory * 2)
            (decodeHistory (ctxGet ctx (effMemoryKey (discoverSubNodes w node.id).memory))
              ++ [⟨"user", upr⟩, ⟨"assistant", text⟩]))) ∧
      (sliceLast (effWindowSize (discoverSubNodes w node.id).memory * 2)
          (decodeHistory (ctxGet ctx (effMemoryKey (discoverSubNodes w node.id).memory))
            ++ [⟨"user", upr⟩, ⟨"assistant", text⟩])).length
        ≤ effWindowSize (discoverSubNodes w node.id).memory * 2 ∧
      sliceLast 2
          (sliceLast (effWindowSize (discoverSubNodes w node.id).memory * 2)
            (decodeHistory (ctxGet ctx (effMemoryKey (discoverSubNodes w node.id).memory))
              ++ [⟨"user", upr⟩, ⟨"assistant", text⟩]))
        = [⟨"user", upr⟩, ⟨"assistant", text⟩] := by
  refine ⟨?_, ?_, effWindowSize_pos _, ?_⟩
  · intro md hmd
    simp [effWindowSize, hmd, Option.bind]
  · intro md hmd
    simp [effMemoryKey, hmd, jsStr, Option.bind]
  · simp only [aiAgentExecutor] at hok
    split at hok
    · simp at hok
    · split at hok
      · simp at hok
      · split at hok
        · simp at hok
        · split at hok
          · simp at hok
          · split at hok
            · simp at hok
            · split at hok
              · simp at hok
              · split at hok
                · simp at hok
                · rename_i x1 varName2 heqv x2 up2 hequp x3 prov2 heqp hkeyne
                    xs sp2 heqsp xu upr2 hequpr xg text2 nsteps2 heqgen
                  rw [hup] at hequp
                  injection hequp with hequp'
                  subst hequp'
                  rw [hupr] at hequpr
                  injection hequpr with hequpr'
                  subst hequpr'
                  simp only [Except.ok.injEq] at hok
                  refine ⟨text2, nsteps2, heqgen, ?_, sliceLast_length_le _ _,
                    sliceLast_last_two _ _ _ _ ?_⟩
                  · rw [← hok, ctxGet_ctxSet_self]
                  · have := effWindowSize_pos (discoverSubNodes w node.id).memory
                    omega

/-- C3 witness: the memory theorem applied to the concrete agent star
`w3` (window size 2, four stored turns, prompt "hello"): the written
history is the last four turns and ends with the new user/assistant
pair. -/
theorem C3_witness :
    jsStr w3agent.data.userPrompt = some "hello" ∧
    renderTemplate "hello" w3ctx = Except.ok "hello" ∧
    (discoverSubNodes w3 w3agent.id).memory.isSome = true ∧
    (aiAgentExecutor w3agent w3ctx w3 w3oracle).output = Except.ok w3ctxOut ∧
    ctxGet w3ctxOut (effMemoryKey (discoverSubNodes w3 w3agent.id).memory) =
      some (encodeHistory
        [⟨"user", "p2"⟩, ⟨"assistant", "a2"⟩, ⟨"user", "hello"⟩,
         ⟨"assistant", "the answer"⟩]) ∧
    1 ≤ effWindowSize (discoverSubNodes w3 w3agent.id).memory := by
  refine ⟨rfl, rfl, rfl, rfl, rfl, ?_⟩
  exact (C3_memory_window w3agent w3ctx w3 w3oracle w3ctxOut "hello" "hello"
    rfl rfl rfl rfl).2.2.1

/- ----- Per-executor context lemmas ----- -/

theorem manualTriggerExecutor_superset (n : DbNode) (ctx : Context) (w : World) (o : Oracle)
    (ctx' : Context) (hok : (manualTriggerExecutor n ctx w o).output = Except.ok ctx') :
    keySuperset ctx ctx' := by
  simp only [manualTriggerExecutor, Except.ok.injEq] at hok
  exact hok ▸ keySuperset_refl ctx

theorem webhookTriggerExecutor_superset (n : DbNode) (ctx : Context) (w : World) (o : Oracle)
    (ctx' : Context) (hok : (webhookTriggerExecutor n ctx w o).output = Except.ok ctx') :
    keySuperset ctx ctx' := by
  simp only [webhookTriggerExecutor, Except.ok.injEq] at hok
  exact hok ▸ keySuperset_refl ctx

theorem passThroughExecutor_superset (ctx : Context) (ctx' : Context)
    (hok : (Except.ok ctx : Except String Context) = Except.ok ctx') :
    keySuperset ctx ctx' := by
  simp only [Except.ok.injEq] at hok
  exact hok ▸ keySuperset_refl ctx

theorem httpRequestExecutor_superset (n : DbNode) (ctx : Context) (w : World) (o : Oracle)
    (ctx' : Context) (hok : (httpRequestExecutor n ctx w o).output = Except.ok ctx') :
    keySuperset ctx ctx' := by
  simp only [httpRequestExecutor] at hok
  split at hok
  · simp at hok
  · split at hok
    · simp at hok
    · split at hok
      · simp at hok
      · simp only [Except.ok.injEq] at hok
        exact hok ▸ keySuperset_ctxSet ctx _ _

theorem llmTextExecutor_superset (ev ep : String) (n : DbNode) (ctx : Context) (w : World)
    (o : Oracle) (ctx' : Context)
    (hok : (llmTextExecutor ev ep n ctx w o).output = Except.ok ctx') :
    keySuperset ctx ctx' := by
  simp only [llmTextExecutor] at hok
  split at hok
  · simp at hok
  · split at hok
    · simp at hok
    · split at hok
      · simp at hok
      · split at hok
        · simp at hok
        · split at hok
          · simp at hok
          · simp only [Except.ok.injEq] at hok
            exact hok ▸ keySuperset_ctxSet ctx _ _

theorem messageExecutor_superset (ev : String) (n : DbNode) (ctx : Context) (w : World)
    (o : Oracle) (ctx' : Context)
    (hok : (messageExecutor ev n ctx w o).output = Except.ok ctx') :
    keySuperset ctx ctx' := by
  simp only [messageExecutor] at hok
  split at hok
  · simp at hok
  · split at hok
    · simp at hok
    · simp only [Except.ok.injEq] at hok
      exact hok ▸ keySuperset_ctxSet ctx _ _

theorem aiAgentExecutor_union (node : DbNode) (ctx : Context) (w : World) (o : Oracle)
    (ctx' : Context) (hok : (aiAgentExecutor node ctx w o).output = Except.ok ctx') :
    keySuperset ctx ctx' ∧
    ∀ k, jsStr node.data.variableName ≠ some k →
      k ≠ effMemoryKey (discoverSubNodes w node.id).memory →
      ctxGet ctx' k = ctxGet ctx k := by
  simp only [aiAgentExecutor] at hok
  split at hok
  · simp at hok
  · split at hok
    · simp at hok
    · split at hok
      · simp at hok
      · split at hok
        · simp at hok
        · split at hok
          · simp at hok
          · split at hok
            · simp at hok
            · split at hok
              · simp at hok
              · rename_i x1 varName2 heqv x2 up2 hequp x3 prov2 heqp hkeyne
                  xs sp2 heqsp xu upr2 hequpr xg text2 nsteps2 heqgen
                split at hok
                · -- memory sub-node present: two spread keys
                  simp only [Except.ok.injEq] at hok
                  constructor
                  · exact hok ▸ keySuperset_trans (keySuperset_ctxSet ctx _ _)
                      (keySuperset_ctxSet _ _ _)
                  · intro k hkv hkm
                    have hkvar : k ≠ varName2 := by
                      intro he
                      exact hkv (he ▸ heqv)
                    rw [← hok, ctxGet_ctxSet_ne _ _ _ _ hkm, ctxGet_ctxSet_ne _ _ _ _ hkvar]
                · -- no memory sub-node: one spread key
                  simp only [Except.ok.injEq] at hok
                  constructor
                  · exact hok ▸ keySuperset_ctxSet ctx _ _
                  · intro k hkv hkm
                    have hkvar : k ≠ varName2 := by
                      intro he
                      exact hkv (he ▸ heqv)
                    rw [← hok, ctxGet_ctxSet_ne _ _ _ _ hkvar]

theorem executor_superset (kind : String)
    (ex : DbNode → Context → World → Oracle → ExecResult)
    (hreg : getExecutorFn kind = some ex)
    (n : DbNode) (ctx : Context) (w : World) (o : Oracle) (ctx' : Context)
    (hok : (ex n ctx w o).output = Except.ok ctx') : keySuperset ctx ctx' := by
  unfold getExecutorFn at hreg
  by_cases h1 : kind = "MANUAL_TRIGGER"
  · rw [if_pos h1] at hreg
    cases hreg
    exact manualTriggerExecutor_superset n ctx w o ctx' hok
  rw [if_neg h1] at hreg
  by_cases h2 : kind = "INITIAL"
  · rw [if_pos h2] at hreg
    cases hreg
    exact manualTriggerExecutor_superset n ctx w o ctx' hok
  rw [if_neg h2] at hreg
  by_cases h3 : kind = "HTTP_REQUEST"
  · rw [if_pos h3] at hreg
    cases hreg
    exact httpRequestExecutor_superset n ctx w o ctx' hok
  rw [if_neg h3] at hreg
  by_cases h4 : kind = "GOOGLE_FORM_TRIGGER"
  · rw [if_pos h4] at hreg
    cases hreg
    exact webhookTriggerExecutor_superset n ctx w o ctx' hok
  rw [if_neg h4] at hreg
  by_cases h5 : kind = "STRIPE_TRIGGER"
  · rw [if_pos h5] at hreg
    cases hreg
    exact webhookTriggerExecutor_superset n ctx w o ctx' hok
  rw [if_neg h5] at hreg
  by_cases h6 : kind = "GEMINI"
  · rw [if_pos h6] at hreg
    cases hreg
    exact llmTextExecutor_superset _ _ n ctx w o ctx' hok
  rw [if_neg h6] at hreg
  by_cases h7 : kind = "ANTHROPIC"
  · rw [if_pos h7] at hreg
    cases hreg
    exact llmTextExecutor_superset _ _ n ctx w o ctx' hok
  rw [if_neg h7] at hreg
  by_cases h8 : kind = "OPENAI"
  · rw [if_pos h8] at hreg
    cases hreg
    exact llmTextExecutor_superset _ _ n ctx w o ctx' hok
  rw [if_neg h8] at hreg
  by_cases h9 : kind = "DISCORD"
  · rw [if_pos h9] at hreg
    cases hreg
    exact messageExecutor_superset _ n ctx w o ctx' hok
  rw [if_neg h9] at hreg
  by_cases h10 : kind = "SLACK"
  · rw [if_pos h10] at hreg
    cases hreg
    exact messageExecutor_superset _ n ctx w o ctx' hok
  rw [if_neg h10] at hreg
  by_cases h11 : kind = "AI_AGENT"
  · rw [if_pos h11] at hreg
    cases hreg
    exact (aiAgentExecutor_union n ctx w o ctx' hok).1
  rw [if_neg h11] at hreg
  by_cases h12 : kind = "CHAT_MODEL"
  · rw [if_pos h12] at hreg
    cases hreg
    exact passThroughExecutor_superset ctx ctx' hok
  rw [if_neg h12] at hreg
  by_cases h13 : kind = "MEMORY"
  · rw [if_pos h13] at hreg
    cases hreg
    exact passThroughExecutor_superset ctx ctx' hok
  rw [if_neg h13] at hreg
  by_cases h14 : kind = "SEND_EMAIL"
  · rw [if_pos h14] at hreg
    cases hreg
    exact passThroughExecutor_superset ctx ctx' hok
  rw [if_neg h14] at hreg
  by_cases h15 : kind = "WEB_SCRAPER"
  · rw [if_pos h15] at hreg
    cases hreg
    exact passThroughExecutor_superset ctx ctx' hok
  rw [if_neg h15] at hreg
  by_cases h16 : kind = "CALCULATOR"
  · rw [if_pos h16] at hreg
    cases hreg
    exact passThroughExecutor_superset ctx ctx' hok
  rw [if_neg h16] at hreg
  by_cases h17 : kind = "INVENTORY_LOOKUP"
  · rw [if_pos h17] at hreg
    cases hreg
    exact passThroughExecutor_superset ctx ctx' hok
  rw [if_neg h17] at hreg
  by_cases h18 : kind = "ORDER_MANAGER"
  · rw [if_pos h18] at hreg
    cases hreg
    exact passThroughExecutor_superset ctx ctx' hok
  rw [if_neg h18] at hreg
  exact absurd hreg (by simp)

theorem runPlan_spec (w : World) (of : String → Oracle) :
    ∀ (plan : List DbNode) (ctx : Context),
      Chained (runPlan w of plan ctx).1 ∧
      (∀ a, (runPlan w of plan ctx).1.head? = some a → a.ctxIn = ctx) ∧
      (∀ e ∈ (runPlan w of plan ctx).1, keySuperset e.ctxIn e.ctxOut) := by
  intro plan
  induction plan with
  | nil =>
    intro ctx
    refine ⟨trivial, ?_, ?_⟩ <;> simp [runPlan]
  | cons n rest ih =>
    intro ctx
    rcases hreg : getExecutorFn n.type with _ | ex
    · refine ⟨?_, ?_, ?_⟩ <;> simp [runPlan, hreg, Chained]
    · rcases hout : (ex n ctx w (of n.id)).output with e | ctx2
      · refine ⟨?_, ?_, ?_⟩ <;> simp [runPlan, hreg, hout, Chained]
      · have hsup := executor_superset n.type ex hreg n ctx w (of n.id) ctx2 hout
        obtain ⟨ihc, ihh, ihs⟩ := ih ctx2
        have hred : (runPlan w of (n :: rest) ctx).1 =
            (⟨n.id, ctx, ctx2⟩ : TraceEntry) :: (runPlan w of rest ctx2).1 := by
          simp [runPlan, hreg, hout]
        refine ⟨?_, ?_, ?_⟩
        · rw [hred]
          rcases hr : (runPlan w of rest ctx2).1 with _ | ⟨b, tr'⟩
          · exact trivial
          · exact ⟨ihh b (by rw [hr]; rfl), hr ▸ ihc⟩
        · intro a ha
          rw [hred] at ha
          simp only [List.head?_cons, Option.some.injEq] at ha
          rw [← ha]
        · intro e he
          rw [hred] at he
          rcases List.mem_cons.mp he with rfl | he'
          · exact hsup
          · exact ihs e he'

/-- C2: within a run, every completed node's output context keeps all
keys of its input context, and the context handed to each node is
exactly the one its predecessor returned; in particular the AI agent
executor returns the input context extended with its own keys (its
variable name and, with a memory sub-node, the memory key) and leaves
every other binding untouched. -/
theorem C2_context_propagation :
    (∀ (w : World) (of : String → Oracle) (plan : List DbNode) (ctx : Context),
      Chained (runPlan w of plan ctx).1 ∧
      (∀ a, (runPlan w of plan ctx).1.head? = some a → a.ctxIn = ctx) ∧
      ∀ e ∈ (runPlan w of plan ctx).1, keySuperset e.ctxIn e.ctxOut) ∧
    (∀ (node : DbNode) (ctx : Context) (w : World) (o : Oracle) (ctx' : Context),
      (aiAgentExecutor node ctx w o).output = Except.ok ctx' →
      keySuperset ctx ctx' ∧
      ∀ k, jsStr node.data.variableName ≠ some k →
        k ≠ effMemoryKey (discoverSubNodes w node.id).memory →
        ctxGet ctx' k = ctxGet ctx k) :=
  ⟨fun w of plan ctx => runPlan_spec w of plan ctx,
   fun node ctx w o ctx' hok => aiAgentExecutor_union node ctx w o ctx' hok⟩

/-- C2 witness: the propagation theorem applied to the concrete
trigger-then-Gemini run and to the concrete agent execution. -/
theorem C2_witness :
    (Chained (runPlan {} c2oracleFor [c2trig, c2gem] []).1 ∧
      ∀ e ∈ (runPlan {} c2oracleFor [c2trig, c2gem] []).1, keySuperset e.ctxIn e.ctxOut) ∧
    (aiAgentExecutor w3agent w3ctx w3 w3oracle).output = Except.ok w3ctxOut ∧
    keySuperset w3ctx w3ctxOut ∧
    ctxGet w3ctxOut "other" = ctxGet w3ctx "other" := by
  refine ⟨⟨(C2_context_propagation.1 {} c2oracleFor [c2trig, c2gem] []).1,
    (C2_context_propagation.1 {} c2oracleFor [c2trig, c2gem] []).2.2⟩, rfl, ?_, ?_⟩
  · exact (C2_context_propagation.2 w3agent w3ctx w3 w3oracle w3ctxOut rfl).1
  · exact (C2_context_propagation.2 w3agent w3ctx w3 w3oracle w3ctxOut rfl).2 "other"
      (by decide) (by decide)

/- ----- Status event lemmas ----- -/

end Viona
